import Mathlib

/-!
Verification of the schemachange deploy engine.

Shallow embedding of the Python sources:
  * `src/schemachange/version.py`                (alphanumeric version keys)
  * `src/schemachange/JinjaTemplateProcessor.py` (render / prepare_for_execution)
  * `src/schemachange/session/Script.py`         (filename classification)
  * `src/schemachange/cli_script_executor.py`    (CLI script parsing/execution)
  * `src/schemachange/deploy.py`                 (the deploy loop)

Strings are modelled as `List Char` (Python `str` over the ASCII/BMP range).
External collaborators (the Jinja template engine, SHA-224, the Snowflake
session, the filesystem, `shutil.which`, `subprocess.run`, the wall clock and
`yaml.safe_load`) are abstracted as oracle parameters; everything that lives
in the repository's own code is translated directly.
-/

/-! ### Basic string utilities (Python `str` helpers) -/

/-- Python whitespace for `str.strip` / `str.isspace` (ASCII fragment). -/
def pySpace (c : Char) : Bool :=
  c = ' ' || c = '\t' || c = '\n' || c = '\r' || c = '\x0b' || c = '\x0c'

/-- Python `str.lstrip()`. -/
def pyLstrip (s : List Char) : List Char := s.dropWhile pySpace

/-- Python `str.rstrip()`. -/
def pyRstrip (s : List Char) : List Char := (s.reverse.dropWhile pySpace).reverse

/-- Python `str.strip()`. -/
def pyStrip (s : List Char) : List Char := pyRstrip (pyLstrip s)

/-- Python `str.lower()` on the ASCII fragment (`Char.toLower` maps A-Z to a-z
and is the identity elsewhere, which agrees with Python on ASCII). -/
def lowerStr (s : List Char) : List Char := s.map Char.toLower

/-- `[0-9]` - the digits recognised by the `([0-9]+)` split in `version.py`. -/
def isDig (c : Char) : Bool := '0' ≤ c && c ≤ '9'

/-- Python `int(...)` on a string of decimal digits. -/
def digitsToNat (s : List Char) : Nat :=
  s.foldl (fun a c => a * 10 + (c.toNat - 48)) 0

/-! ### version.py : `get_alphanum_key`

`get_alphanum_key` splits its argument at maximal digit runs
(`re.split("([0-9]+)", str(key))`), converting digit runs with `int` and
lower-casing the interleaved non-digit segments (`alphanum_convert`).
The resulting Python list alternates string, int, string, ..., string. -/

/-- One element of an alphanumeric key: a (lower-cased) string segment or an
integer obtained from a digit run. -/
inductive AlphaTok where
  | str (s : List Char)
  | num (n : Nat)
deriving DecidableEq, Repr

mutual
/-- Splitting state: accumulating a non-digit segment (`acc` is reversed).
Mirrors `re.split("([0-9]+)", key)` followed by `alphanum_convert` on each
part: segments are lower-cased, digit runs become integers. -/
def splitRunsS (acc : List Char) : List Char → List AlphaTok
  | [] => [.str (lowerStr acc.reverse)]
  | c :: rest =>
    if isDig c then .str (lowerStr acc.reverse) :: splitRunsN [c] rest
    else splitRunsS (c :: acc) rest

/-- Splitting state: accumulating a digit run (`acc` is reversed). -/
def splitRunsN (acc : List Char) : List Char → List AlphaTok
  | [] => [.num (digitsToNat acc.reverse), .str []]
  | c :: rest =>
    if isDig c then splitRunsN (c :: acc) rest
    else .num (digitsToNat acc.reverse) :: splitRunsS [c] rest
end

/-- `get_alphanum_key(key)` from `version.py`: `None` and `""` give `[]`,
otherwise the alternating split of the string. -/
def getAlphanumKey : Option (List Char) → List AlphaTok
  | none => []
  | some [] => []
  | some cs => splitRunsS [] cs

/-- Key of a plain (non-`None`) string. -/
def alphanumKeyOf (s : List Char) : List AlphaTok := getAlphanumKey (some s)

/-! ### Comparison of keys (Python list/str/int comparison) -/

/-- Three-way comparison of naturals (Python `int` comparison). -/
def cmpNat (a b : Nat) : Ordering :=
  if a < b then .lt else if b < a then .gt else .eq

/-- Three-way comparison of characters by code point. -/
def cmpChar (a b : Char) : Ordering := cmpNat a.toNat b.toNat

/-- Generic lexicographic comparison of lists given an element comparison.
This is exactly Python sequence comparison when `cmp` never fails. -/
def lexCmp (cmp : α → α → Ordering) : List α → List α → Ordering
  | [], [] => .eq
  | [], _ :: _ => .lt
  | _ :: _, [] => .gt
  | x :: xs, y :: ys =>
    match cmp x y with
    | .eq => lexCmp cmp xs ys
    | o => o

/-- Python string comparison (lexicographic by code point). -/
def cmpStr (a b : List Char) : Ordering := lexCmp cmpChar a b

/-- Comparison of key elements. Python raises `TypeError` when comparing an
`int` with a `str`; that failure is modelled as `none`. -/
def cmpTok : AlphaTok → AlphaTok → Option Ordering
  | .str a, .str b => some (cmpStr a b)
  | .num a, .num b => some (cmpNat a b)
  | _, _ => none

/-- Python list comparison of two keys, propagating a `TypeError` (`none`)
only when it is actually reached: an earlier deciding index short-circuits. -/
def cmpKey : List AlphaTok → List AlphaTok → Option Ordering
  | [], [] => some .eq
  | [], _ :: _ => some .lt
  | _ :: _, [] => some .gt
  | x :: xs, y :: ys =>
    match cmpTok x y with
    | some .eq => cmpKey xs ys
    | some o => some o
    | none => none

/-- Python `key_a <= key_b` on two alphanumeric keys. The `none` (TypeError)
case is unreachable for keys of strings (`cmpKey_alphanumKey_isSome`); the
value chosen for it is irrelevant. -/
def keyLe (a b : List AlphaTok) : Bool :=
  match cmpKey a b with
  | some .gt => false
  | _ => true

/-! #### A total comparison used in proofs

`cmpTokT` extends `cmpTok` arbitrarily on the (unreachable) mixed cases; on
keys produced from strings it agrees with `cmpKey`. -/

/-- Total extension of `cmpTok` (proof device, not part of the source). -/
def cmpTokT : AlphaTok → AlphaTok → Ordering
  | .str a, .str b => cmpStr a b
  | .num a, .num b => cmpNat a b
  | .str _, .num _ => .lt
  | .num _, .str _ => .gt

/-- Total comparison of keys (proof device). -/
def cmpKeyT (a b : List AlphaTok) : Ordering := lexCmp cmpTokT a b

/-! #### Ordering lemmas for the comparators -/

theorem cmpNat_lt_iff {a b : Nat} : cmpNat a b = .lt ↔ a < b := by
  unfold cmpNat
  split <;> rename_i h
  · simp [h]
  · split <;> simp <;> omega

theorem cmpNat_eq_iff {a b : Nat} : cmpNat a b = .eq ↔ a = b := by
  unfold cmpNat
  split <;> rename_i h
  · simp; omega
  · split <;> rename_i h2 <;> simp <;> omega

theorem cmpNat_swap {a b : Nat} : (cmpNat a b).swap = cmpNat b a := by
  unfold cmpNat
  by_cases h1 : a < b <;> by_cases h2 : b < a <;>
    simp [h1, h2, Ordering.swap] <;> omega

theorem cmpNat_lt_trans {a b c : Nat} :
    cmpNat a b = .lt → cmpNat b c = .lt → cmpNat a c = .lt := by
  rw [cmpNat_lt_iff, cmpNat_lt_iff, cmpNat_lt_iff]
  omega

theorem cmpChar_eq_iff {a b : Char} : cmpChar a b = .eq ↔ a = b := by
  unfold cmpChar
  rw [cmpNat_eq_iff]
  constructor
  · intro h
    have h2 := congrArg Char.ofNat h
    simpa using h2
  · intro h; rw [h]

theorem cmpChar_swap {a b : Char} : (cmpChar a b).swap = cmpChar b a := cmpNat_swap

theorem cmpChar_lt_trans {a b c : Char} :
    cmpChar a b = .lt → cmpChar b c = .lt → cmpChar a c = .lt := cmpNat_lt_trans

section LexLemmas

variable {α : Type} {cmp : α → α → Ordering}

theorem lexCmp_eq_iff (heq : ∀ x y, cmp x y = .eq ↔ x = y) :
    ∀ {s t : List α}, lexCmp cmp s t = .eq ↔ s = t
  | [], [] => by simp [lexCmp]
  | [], _ :: _ => by simp [lexCmp]
  | _ :: _, [] => by simp [lexCmp]
  | x :: xs, y :: ys => by
    simp only [lexCmp]
    cases h : cmp x y with
    | eq =>
      have hxy : x = y := (heq x y).mp h
      subst hxy
      rw [lexCmp_eq_iff heq]
      simp
    | lt =>
      have : x ≠ y := fun hh => by simp [(heq x y).mpr hh] at h
      simp [this]
    | gt =>
      have : x ≠ y := fun hh => by simp [(heq x y).mpr hh] at h
      simp [this]

theorem lexCmp_swap (hswap : ∀ x y, (cmp x y).swap = cmp y x) :
    ∀ {s t : List α}, (lexCmp cmp s t).swap = lexCmp cmp t s
  | [], [] => by simp [lexCmp, Ordering.swap]
  | [], _ :: _ => by simp [lexCmp, Ordering.swap]
  | _ :: _, [] => by simp [lexCmp, Ordering.swap]
  | x :: xs, y :: ys => by
    simp only [lexCmp]
    cases h : cmp x y with
    | eq =>
      have h' : cmp y x = .eq := by rw [← hswap x y, h]; rfl
      rw [h']
      exact lexCmp_swap hswap
    | lt =>
      have h' : cmp y x = .gt := by rw [← hswap x y, h]; rfl
      rw [h']
      rfl
    | gt =>
      have h' : cmp y x = .lt := by rw [← hswap x y, h]; rfl
      rw [h']
      rfl

theorem lexCmp_lt_trans (heq : ∀ x y, cmp x y = .eq ↔ x = y)
    (htr : ∀ x y z, cmp x y = .lt → cmp y z = .lt → cmp x z = .lt) :
    ∀ {s t u : List α}, lexCmp cmp s t = .lt → lexCmp cmp t u = .lt →
      lexCmp cmp s u = .lt
  | [], [], _, h1, _ => by simp [lexCmp] at h1
  | [], _ :: _, [], _, h2 => by simp [lexCmp] at h2
  | [], _ :: _, _ :: _, _, _ => by simp [lexCmp]
  | _ :: _, [], _, h1, _ => by simp [lexCmp] at h1
  | _ :: _, _ :: _, [], _, h2 => by simp [lexCmp] at h2
  | x :: xs, y :: ys, z :: zs, h1, h2 => by
    simp only [lexCmp] at h1 h2 ⊢
    cases hxy : cmp x y with
    | eq =>
      rw [hxy] at h1
      replace h1 : lexCmp cmp xs ys = .lt := h1
      have hxey : x = y := (heq x y).mp hxy
      subst hxey
      cases hyz : cmp x z with
      | eq =>
        rw [hyz] at h2
        replace h2 : lexCmp cmp ys zs = .lt := h2
        have hxez : x = z := (heq x z).mp hyz
        subst hxez
        show lexCmp cmp xs zs = Ordering.lt
        exact lexCmp_lt_trans heq htr h1 h2
      | lt => rfl
      | gt =>
        rw [hyz] at h2
        replace h2 : Ordering.gt = Ordering.lt := h2
        exact absurd h2 (by decide)
    | lt =>
      cases hyz : cmp y z with
      | eq =>
        have hyez : y = z := (heq y z).mp hyz
        subst hyez
        rw [hxy]
      | lt => rw [htr x y z hxy hyz]
      | gt =>
        rw [hyz] at h2
        replace h2 : Ordering.gt = Ordering.lt := h2
        exact absurd h2 (by decide)
    | gt =>
      rw [hxy] at h1
      replace h1 : Ordering.gt = Ordering.lt := h1
      exact absurd h1 (by decide)

end LexLemmas

theorem cmpStr_eq_iff {a b : List Char} : cmpStr a b = .eq ↔ a = b :=
  lexCmp_eq_iff (fun x y => @cmpChar_eq_iff x y)

theorem cmpStr_swap {a b : List Char} : (cmpStr a b).swap = cmpStr b a :=
  lexCmp_swap (fun x y => @cmpChar_swap x y)

theorem cmpStr_lt_trans {a b c : List Char} :
    cmpStr a b = .lt → cmpStr b c = .lt → cmpStr a c = .lt :=
  lexCmp_lt_trans (fun x y => @cmpChar_eq_iff x y)
    (fun x y z => @cmpChar_lt_trans x y z)

theorem cmpTokT_eq_iff {a b : AlphaTok} : cmpTokT a b = .eq ↔ a = b := by
  cases a <;> cases b <;>
    simp only [cmpTokT, cmpStr_eq_iff, cmpNat_eq_iff, AlphaTok.str.injEq,
      AlphaTok.num.injEq] <;> simp

theorem cmpTokT_swap {a b : AlphaTok} : (cmpTokT a b).swap = cmpTokT b a := by
  cases a <;> cases b
  · exact cmpStr_swap
  · rfl
  · rfl
  · exact cmpNat_swap

theorem cmpTokT_lt_trans {a b c : AlphaTok} :
    cmpTokT a b = .lt → cmpTokT b c = .lt → cmpTokT a c = .lt := by
  cases a <;> cases b <;> cases c <;> intro h1 h2
  case str.str.str => exact cmpStr_lt_trans h1 h2
  case str.str.num => rfl
  case str.num.str => simp [cmpTokT] at h2
  case str.num.num => rfl
  case num.str.str => simp [cmpTokT] at h1
  case num.str.num => simp [cmpTokT] at h1
  case num.num.str => simp [cmpTokT] at h2
  case num.num.num => exact cmpNat_lt_trans h1 h2

theorem cmpKeyT_eq_iff {a b : List AlphaTok} : cmpKeyT a b = .eq ↔ a = b :=
  lexCmp_eq_iff (fun x y => @cmpTokT_eq_iff x y)

theorem cmpKeyT_swap {a b : List AlphaTok} : (cmpKeyT a b).swap = cmpKeyT b a :=
  lexCmp_swap (fun x y => @cmpTokT_swap x y)

theorem cmpKeyT_lt_trans {a b c : List AlphaTok} :
    cmpKeyT a b = .lt → cmpKeyT b c = .lt → cmpKeyT a c = .lt :=
  lexCmp_lt_trans (fun x y => @cmpTokT_eq_iff x y)
    (fun x y z => @cmpTokT_lt_trans x y z)

/-! #### Shape of generated keys -/

/-- `Shp true l`: `l` alternates string, integer, string, ..., ending with a
string (odd length). `Shp false l`: `l` alternates integer, string, ...,
possibly empty. `get_alphanum_key` of a non-empty string satisfies
`Shp true`. -/
inductive Shp : Bool → List AlphaTok → Prop where
  | nilN : Shp false []
  | consS (s : List Char) (rest : List AlphaTok) :
      Shp false rest → Shp true (.str s :: rest)
  | consN (n : Nat) (rest : List AlphaTok) :
      Shp true rest → Shp false (.num n :: rest)

theorem splitRuns_shape :
    ∀ (n : Nat) (l : List Char), l.length ≤ n →
      ∀ acc₁ acc₂ : List Char,
        Shp true (splitRunsS acc₁ l) ∧ Shp false (splitRunsN acc₂ l) := by
  intro n
  induction n with
  | zero =>
    intro l hl acc₁ acc₂
    have hnil : l = [] := List.eq_nil_of_length_eq_zero (Nat.le_zero.mp hl)
    subst hnil
    exact ⟨Shp.consS _ _ Shp.nilN, Shp.consN _ _ (Shp.consS _ _ Shp.nilN)⟩
  | succ m ih =>
    intro l hl acc₁ acc₂
    cases l with
    | nil =>
      exact ⟨Shp.consS _ _ Shp.nilN, Shp.consN _ _ (Shp.consS _ _ Shp.nilN)⟩
    | cons c rest =>
      have hr : rest.length ≤ m := by
        simpa using Nat.le_of_succ_le_succ hl
      constructor
      · show Shp true (splitRunsS acc₁ (c :: rest))
        by_cases hd : isDig c
        · have h2 := (ih rest hr [c] [c]).2
          simpa [splitRunsS, hd] using Shp.consS (lowerStr acc₁.reverse) _ h2
        · have h1 := (ih rest hr (c :: acc₁) (c :: acc₁)).1
          simpa [splitRunsS, hd] using h1
      · show Shp false (splitRunsN acc₂ (c :: rest))
        by_cases hd : isDig c
        · have h2 := (ih rest hr (c :: acc₂) (c :: acc₂)).2
          simpa [splitRunsN, hd] using h2
        · have h1 := (ih rest hr [c] [c]).1
          simpa [splitRunsN, hd] using Shp.consN (digitsToNat acc₂.reverse) _ h1

theorem alphanumKey_shape (s : List Char) (hs : s ≠ []) :
    Shp true (alphanumKeyOf s) := by
  cases s with
  | nil => exact absurd rfl hs
  | cons c rest =>
    show Shp true (splitRunsS [] (c :: rest))
    exact (splitRuns_shape (c :: rest).length (c :: rest) le_rfl [] []).1

theorem alphanumKey_nil : alphanumKeyOf [] = [] := rfl

/-- On keys of equal parity shapes, Python list comparison never reaches a
mixed `int`/`str` pair, hence agrees with the total comparison `cmpKeyT`. -/
theorem cmpKey_eq_cmpKeyT :
    ∀ {b : Bool} {x : List AlphaTok}, Shp b x →
      ∀ {y : List AlphaTok}, Shp b y → cmpKey x y = some (cmpKeyT x y) := by
  intro b x hx
  induction hx with
  | nilN =>
    intro y hy
    cases hy with
    | nilN => rfl
    | consN n rest h => rfl
  | consS s rest hrest ih =>
    intro y hy
    cases hy with
    | consS t rest' h' =>
      show cmpKey (.str s :: rest) (.str t :: rest') = _
      simp only [cmpKey, cmpTok, cmpKeyT, lexCmp, cmpTokT]
      cases hst : cmpStr s t with
      | eq => exact ih h'
      | lt => rfl
      | gt => rfl
  | consN n rest hrest ih =>
    intro y hy
    cases hy with
    | nilN => rfl
    | consN m rest' h' =>
      show cmpKey (.num n :: rest) (.num m :: rest') = _
      simp only [cmpKey, cmpTok, cmpKeyT, lexCmp, cmpTokT]
      cases hnm : cmpNat n m with
      | eq => exact ih h'
      | lt => rfl
      | gt => rfl

/-- Comparison of the keys of any two strings agrees with the total
comparison: the `TypeError` case is unreachable. -/
theorem cmpKey_alphanum_eq_T (s t : List Char) :
    cmpKey (alphanumKeyOf s) (alphanumKeyOf t) =
      some (cmpKeyT (alphanumKeyOf s) (alphanumKeyOf t)) := by
  cases s with
  | nil =>
    rw [alphanumKey_nil]
    cases hk : alphanumKeyOf t with
    | nil => rfl
    | cons a rest => rfl
  | cons c cs =>
    cases t with
    | nil =>
      rw [alphanumKey_nil]
      have := alphanumKey_shape (c :: cs) (by simp)
      cases hk : alphanumKeyOf (c :: cs) with
      | nil => rw [hk] at this; cases this
      | cons a rest => rfl
    | cons d ds =>
      exact cmpKey_eq_cmpKeyT (alphanumKey_shape _ (by simp))
        (alphanumKey_shape _ (by simp))

theorem cmpKey_alphanum_isSome (s t : List Char) :
    (cmpKey (alphanumKeyOf s) (alphanumKeyOf t)).isSome := by
  rw [cmpKey_alphanum_eq_T]
  rfl

/-- `cmpKeyT x y = .eq` implies list equality. -/
theorem cmpKeyT_gt_asymm {a b : List AlphaTok} :
    cmpKeyT a b = .gt → cmpKeyT b a = .lt := by
  intro h
  have := @cmpKeyT_swap a b
  rw [h] at this
  exact this.symm

theorem cmpKeyT_notGT_trans {a b c : List AlphaTok} :
    cmpKeyT a b ≠ .gt → cmpKeyT b c ≠ .gt → cmpKeyT a c ≠ .gt := by
  intro h1 h2
  cases hab : cmpKeyT a b with
  | gt => exact absurd hab h1
  | eq =>
    have : a = b := cmpKeyT_eq_iff.mp hab
    subst this
    exact h2
  | lt =>
    cases hbc : cmpKeyT b c with
    | gt => exact absurd hbc h2
    | eq =>
      have : b = c := cmpKeyT_eq_iff.mp hbc
      subst this
      rw [hab]
      simp
    | lt =>
      rw [cmpKeyT_lt_trans hab hbc]
      simp

/-! #### Structural facts about keys -/

/-- Recogniser for string tokens. -/
def isStrTok : AlphaTok → Bool
  | .str _ => true
  | .num _ => false

theorem shp_length {b : Bool} {x : List AlphaTok} (h : Shp b x) :
    x.length % 2 = cond b 1 0 := by
  induction h with
  | nilN => rfl
  | consS s rest hrest ih =>
    show (rest.length + 1) % 2 = 1
    have h0 : rest.length % 2 = 0 := ih
    omega
  | consN n rest hrest ih =>
    show (rest.length + 1) % 2 = 0
    have h1 : rest.length % 2 = 1 := ih
    omega

theorem shp_get {b : Bool} {x : List AlphaTok} (h : Shp b x) :
    ∀ (i : Nat) (hi : i < x.length),
      isStrTok (x.get ⟨i, hi⟩) =
        cond b (decide (i % 2 = 0)) (decide (i % 2 = 1)) := by
  induction h with
  | nilN => intro i hi; simp at hi
  | consS s rest hrest ih =>
    intro i hi
    cases i with
    | zero => rfl
    | succ j =>
      have hj : j < rest.length := Nat.lt_of_succ_lt_succ (by simpa using hi)
      have h1 : isStrTok (rest.get ⟨j, hj⟩) = decide (j % 2 = 1) := ih j hj
      show isStrTok (rest.get ⟨j, hj⟩) = decide ((j + 1) % 2 = 0)
      rw [h1]
      exact decide_eq_decide.mpr (by omega)
  | consN n rest hrest ih =>
    intro i hi
    cases i with
    | zero => rfl
    | succ j =>
      have hj : j < rest.length := Nat.lt_of_succ_lt_succ (by simpa using hi)
      have h1 : isStrTok (rest.get ⟨j, hj⟩) = decide (j % 2 = 0) := ih j hj
      show isStrTok (rest.get ⟨j, hj⟩) = decide ((j + 1) % 2 = 1)
      rw [h1]
      exact decide_eq_decide.mpr (by omega)

/-- A key element that is a string segment is lower-cased (it is the image of
`lowerStr`); integer elements carry no constraint. -/
def tokLowered : AlphaTok → Prop
  | .str s => ∃ t, s = lowerStr t
  | .num _ => True

theorem splitRunsS_cons (acc : List Char) (c : Char) (rest : List Char) :
    splitRunsS acc (c :: rest) =
      if isDig c then .str (lowerStr acc.reverse) :: splitRunsN [c] rest
      else splitRunsS (c :: acc) rest := by
  simp [splitRunsS]

theorem splitRunsN_cons (acc : List Char) (c : Char) (rest : List Char) :
    splitRunsN acc (c :: rest) =
      if isDig c then splitRunsN (c :: acc) rest
      else .num (digitsToNat acc.reverse) :: splitRunsS [c] rest := by
  simp [splitRunsN]

theorem splitRuns_lowered :
    ∀ (n : Nat) (l : List Char), l.length ≤ n →
      ∀ acc₁ acc₂ : List Char,
        (∀ tok ∈ splitRunsS acc₁ l, tokLowered tok) ∧
        (∀ tok ∈ splitRunsN acc₂ l, tokLowered tok) := by
  intro n
  induction n with
  | zero =>
    intro l hl acc₁ acc₂
    have hnil : l = [] := List.eq_nil_of_length_eq_zero (Nat.le_zero.mp hl)
    subst hnil
    constructor
    · intro tok htok
      have : tok = .str (lowerStr acc₁.reverse) := by simpa [splitRunsS] using htok
      subst this
      exact ⟨acc₁.reverse, rfl⟩
    · intro tok htok
      have : tok = .num (digitsToNat acc₂.reverse) ∨ tok = .str [] := by
        simpa [splitRunsN] using htok
      rcases this with h | h <;> subst h
      · trivial
      · exact ⟨[], rfl⟩
  | succ m ih =>
    intro l hl acc₁ acc₂
    cases l with
    | nil =>
      constructor
      · intro tok htok
        have : tok = .str (lowerStr acc₁.reverse) := by simpa [splitRunsS] using htok
        subst this
        exact ⟨acc₁.reverse, rfl⟩
      · intro tok htok
        have : tok = .num (digitsToNat acc₂.reverse) ∨ tok = .str [] := by
          simpa [splitRunsN] using htok
        rcases this with h | h <;> subst h
        · trivial
        · exact ⟨[], rfl⟩
    | cons c rest =>
      have hr : rest.length ≤ m := by simpa using Nat.le_of_succ_le_succ hl
      constructor
      · intro tok htok
        rw [splitRunsS_cons] at htok
        by_cases hd : isDig c
        · rw [if_pos hd] at htok
          rcases List.mem_cons.mp htok with h | h
          · subst h; exact ⟨acc₁.reverse, rfl⟩
          · exact (ih rest hr [c] [c]).2 tok h
        · rw [if_neg hd] at htok
          exact (ih rest hr (c :: acc₁) (c :: acc₁)).1 tok htok
      · intro tok htok
        rw [splitRunsN_cons] at htok
        by_cases hd : isDig c
        · rw [if_pos hd] at htok
          exact (ih rest hr (c :: acc₂) (c :: acc₂)).2 tok htok
        · rw [if_neg hd] at htok
          rcases List.mem_cons.mp htok with h | h
          · subst h; trivial
          · exact (ih rest hr [c] [c]).1 tok h

/-! ### version.py : `sorted_alphanumeric` and the deploy execution order -/

/-- Python `get_alphanum_key(a) <= get_alphanum_key(b)` on two strings. -/
def nameLe (a b : List Char) : Bool := keyLe (alphanumKeyOf a) (alphanumKeyOf b)

theorem nameLe_iff (a b : List Char) :
    nameLe a b = true ↔ cmpKeyT (alphanumKeyOf a) (alphanumKeyOf b) ≠ .gt := by
  unfold nameLe keyLe
  rw [cmpKey_alphanum_eq_T]
  cases cmpKeyT (alphanumKeyOf a) (alphanumKeyOf b) <;> simp

/-- The key order as a decidable relation on names. -/
def nameLeR (a b : List Char) : Prop := nameLe a b = true

instance : DecidableRel nameLeR := fun a b =>
  inferInstanceAs (Decidable (nameLe a b = true))

instance : IsTotal (List Char) nameLeR := by
  constructor
  intro a b
  by_cases h : cmpKeyT (alphanumKeyOf a) (alphanumKeyOf b) = .gt
  · right
    rw [nameLeR, nameLe_iff, cmpKeyT_gt_asymm h]
    simp
  · left
    rw [nameLeR, nameLe_iff]
    exact h

instance : IsTrans (List Char) nameLeR := by
  constructor
  intro a b c hab hbc
  rw [nameLeR, nameLe_iff] at hab hbc ⊢
  exact cmpKeyT_notGT_trans hab hbc

/-- `sorted_alphanumeric(data)` from `version.py`: Python `sorted` is a
stable ascending sort by `get_alphanum_key`; insertion sort is stable, so it
is a faithful model of the sort's input/output behaviour. -/
def sortedAlphanumeric (data : List (List Char)) : List (List Char) :=
  List.insertionSort nameLeR data

/-- `deploy.py` lines 49-53: all names beginning with `v`, alphanumerically
sorted, then those beginning with `r`, then those beginning with `a`.
(The dictionary built by discovery keys scripts by lower-cased name, so the
first character is compared with the lower-case letters.) -/
def allScriptNamesSorted (names : List (List Char)) : List (List Char) :=
  sortedAlphanumeric (names.filter (fun s => s.head? == some 'v'))
    ++ sortedAlphanumeric (names.filter (fun s => s.head? == some 'r'))
    ++ sortedAlphanumeric (names.filter (fun s => s.head? == some 'a'))

theorem alphanumKey_eq_splitRuns {s : List Char} (hs : s ≠ []) :
    alphanumKeyOf s = splitRunsS [] s := by
  cases s with
  | nil => exact absurd rfl hs
  | cons c rest => rfl

/-- **C9.** `get_alphanum_key` of an ASCII string is an odd-length list whose
even-index elements are lower-cased strings and whose odd-index elements are
integers (the empty string yields `[]`); consequently the element-wise
comparison of the keys of any two ASCII strings never reaches a mixed
`int`/`str` pair, so ordering and sorting by this key is total and never
fails with a type mismatch (`cmpKey` never returns the `TypeError` marker). -/
theorem get_alphanum_key_shape_total (s t : List Char)
    (hs : ∀ c ∈ s, c.toNat < 128) (ht : ∀ c ∈ t, c.toNat < 128) :
    alphanumKeyOf [] = [] ∧
    (s ≠ [] →
      (alphanumKeyOf s).length % 2 = 1 ∧
      ∀ (i : Nat) (hi : i < (alphanumKeyOf s).length),
        (i % 2 = 0 → ∃ u, (alphanumKeyOf s).get ⟨i, hi⟩ = .str (lowerStr u)) ∧
        (i % 2 = 1 → ∃ n, (alphanumKeyOf s).get ⟨i, hi⟩ = .num n)) ∧
    (cmpKey (alphanumKeyOf s) (alphanumKeyOf t)).isSome = true := by
  refine ⟨rfl, ?_, ?_⟩
  · intro hne
    have hshape := alphanumKey_shape s hne
    refine ⟨by simpa using shp_length hshape, ?_⟩
    intro i hi
    have hg := shp_get hshape i hi
    have hlowall : ∀ tok ∈ alphanumKeyOf s, tokLowered tok := by
      rw [alphanumKey_eq_splitRuns hne]
      exact (splitRuns_lowered s.length s le_rfl [] []).1
    constructor
    · intro hpar
      simp only [cond_true, hpar] at hg
      cases hget : (alphanumKeyOf s).get ⟨i, hi⟩ with
      | str u =>
        have hmem : AlphaTok.str u ∈ alphanumKeyOf s := by
          rw [← hget]; exact List.get_mem _ _ _
        obtain ⟨u', hu'⟩ := hlowall _ hmem
        exact ⟨u', by rw [hu']⟩
      | num n =>
        rw [hget] at hg
        simp [isStrTok] at hg
    · intro hpar
      simp only [cond_true, hpar] at hg
      cases hget : (alphanumKeyOf s).get ⟨i, hi⟩ with
      | str u =>
        rw [hget] at hg
        simp [isStrTok] at hg
      | num n => exact ⟨n, rfl⟩
  · rw [cmpKey_alphanum_eq_T]
    rfl

/-- Witness for C9 at the concrete version strings `1.0.10` and `1.0.2`. -/
theorem get_alphanum_key_shape_total_witness :
    (cmpKey (alphanumKeyOf "1.0.10".toList) (alphanumKeyOf "1.0.2".toList)).isSome
      = true :=
  (get_alphanum_key_shape_total "1.0.10".toList "1.0.2".toList
    (by decide) (by decide)).2.2

theorem sortedAlphanumeric_perm (l : List (List Char)) :
    (sortedAlphanumeric l).Perm l :=
  List.perm_insertionSort nameLeR l

theorem sortedAlphanumeric_sorted (l : List (List Char)) :
    (sortedAlphanumeric l).Sorted nameLeR :=
  List.sorted_insertionSort nameLeR l

/-- **C2.** The execution order of a discovered repository is the names with
first letter `v` (sorted by the alphanumeric key of the name), then those
with first letter `r`, then those with first letter `a`; in particular the
repository `{V1.0.0__a.sql, V1.0.10__b.sql, V1.0.2__c.sql, R__z.sql,
A__y.sql}` (whose dictionary keys are the lower-cased names) executes in the
order a, c, b, z, y. -/
theorem deploy_execution_order (names : List (List Char)) :
    (∃ vs rs as2,
      allScriptNamesSorted names = vs ++ rs ++ as2 ∧
      (∀ x ∈ vs, x.head? = some 'v') ∧
      (∀ x ∈ rs, x.head? = some 'r') ∧
      (∀ x ∈ as2, x.head? = some 'a') ∧
      vs.Perm (names.filter (fun s => s.head? == some 'v')) ∧
      rs.Perm (names.filter (fun s => s.head? == some 'r')) ∧
      as2.Perm (names.filter (fun s => s.head? == some 'a')) ∧
      vs.Sorted nameLeR ∧ rs.Sorted nameLeR ∧ as2.Sorted nameLeR) ∧
    allScriptNamesSorted
        ["v1.0.0__a.sql".toList, "v1.0.10__b.sql".toList,
         "v1.0.2__c.sql".toList, "r__z.sql".toList, "a__y.sql".toList] =
      ["v1.0.0__a.sql".toList, "v1.0.2__c.sql".toList,
       "v1.0.10__b.sql".toList, "r__z.sql".toList, "a__y.sql".toList] := by
  constructor
  · refine ⟨sortedAlphanumeric (names.filter (fun s => s.head? == some 'v')),
      sortedAlphanumeric (names.filter (fun s => s.head? == some 'r')),
      sortedAlphanumeric (names.filter (fun s => s.head? == some 'a')),
      rfl, ?_, ?_, ?_,
      sortedAlphanumeric_perm _, sortedAlphanumeric_perm _,
      sortedAlphanumeric_perm _,
      sortedAlphanumeric_sorted _, sortedAlphanumeric_sorted _,
      sortedAlphanumeric_sorted _⟩ <;>
    · intro x hx
      have hx2 := (sortedAlphanumeric_perm _).mem_iff.mp hx
      have := (List.mem_filter.mp hx2).2
      simpa using this
  · decide

/-! ### JinjaTemplateProcessor.py

`render` receives the template-expanded text (`template.render` itself is the
external Jinja collaborator); everything after that point - BOM removal,
stripping, semicolon handling, comment analysis - is repository code and is
translated directly. -/

/-- `_is_cli_script`: the (lower-cased) path ends in `.cli.yml` or
`.cli.yml.jinja`. -/
def isCliScriptName (script : List Char) : Bool :=
  ".cli.yml".toList.isSuffixOf (lowerStr script) ||
    ".cli.yml.jinja".toList.isSuffixOf (lowerStr script)

/-- Drop one leading U+FEFF (issue #250). -/
def stripBOM (s : List Char) : List Char :=
  match s with
  | '\uFEFF' :: rest => rest
  | _ => s

mutual
/-- `re.sub(r"--[^\n]*", "", s)`: at each `--`, drop characters up to
(excluding) the next newline; matches are removed left to right. -/
def stripLineComments : List Char → List Char
  | [] => []
  | '-' :: '-' :: rest => skipLineComment rest
  | c :: rest => c :: stripLineComments rest

/-- Inside a `--` comment: drop characters up to the next newline. -/
def skipLineComment : List Char → List Char
  | [] => []
  | '\n' :: rest => '\n' :: stripLineComments rest
  | _ :: rest => skipLineComment rest
end

/-- Scan for the first `*/`; `some r` is the text after it. -/
def dropToClose : List Char → Option (List Char)
  | [] => none
  | c :: rest =>
    if c = '*' ∧ rest.head? = some '/' then some rest.tail
    else dropToClose rest

theorem dropToClose_length :
    ∀ {l r : List Char}, dropToClose l = some r → r.length + 2 ≤ l.length := by
  intro l
  induction l with
  | nil => intro r h; cases h
  | cons c rest ih =>
    intro r h
    rw [dropToClose] at h
    split at h
    · rename_i hc
      have hr : r = rest.tail := by cases h; rfl
      subst hr
      have hne : rest ≠ [] := by
        intro hnil
        rw [hnil] at hc
        simp at hc
      have : rest.tail.length = rest.length - 1 := by simp
      have : 1 ≤ rest.length := List.length_pos.mpr hne
      simp only [List.length_cons, List.length_tail]
      omega
    · have := ih h
      simp only [List.length_cons]
      omega

/-- `re.sub(r"/\*.*?\*/", "", s, flags=re.DOTALL)`: non-greedy block-comment
removal, left to right; a `/*` with no matching `*/` does not match (and no
later `/*` can match either, since no `*/` remains). Structured with a fuel
argument so the definition is structurally recursive and kernel-reducible;
the list argument always shrinks strictly, so with fuel equal to the input
length (`dropToClose_length`) the fuel never runs out and the `0` branch is
reached only with an empty list, which it returns unchanged. -/
def stripBlockCommentsF : Nat → List Char → List Char
  | 0, s => s
  | _ + 1, [] => []
  | f + 1, c :: rest =>
    if c = '/' ∧ rest.head? = some '*' then
      match dropToClose rest.tail with
      | some rest2 => stripBlockCommentsF f rest2
      | none => c :: rest
    else c :: stripBlockCommentsF f rest

def stripBlockComments (s : List Char) : List Char :=
  stripBlockCommentsF s.length s

/-- Python `.replace(";", "")`. -/
def removeSemis (s : List Char) : List Char := s.filter (fun c => c != ';')

/-- Python `str.isspace()`-style check used as `content.isspace()` (combined
with the emptiness test the empty/non-empty distinction is immaterial). -/
def isAllSpace (s : List Char) : Bool := s.all pySpace

/-- `f"Script '{script}' rendered to empty content. ..."` (`\x27` = quote). -/
def emptyContentMsg (script : List Char) : List Char :=
  "Script \x27".toList ++ script ++
    "\x27 rendered to empty content. Check Jinja variables and conditional blocks.".toList

/-- `f"Script '{script}' contains only comments or semicolons. ..."`. -/
def onlyCommentsMsg (script : List Char) : List Char :=
  "Script \x27".toList ++ script ++
    "\x27 contains only comments or semicolons. Add SQL statements or remove the script.".toList

/-- `f"CLI script '{script}' rendered to empty content after Jinja ..."`. -/
def cliEmptyMsg (script : List Char) : List Char :=
  "CLI script \x27".toList ++ script ++
    "\x27 rendered to empty content after Jinja processing.\nEnsure the file contains valid YAML with a \x27steps\x27 key.".toList

/-- The stripped SQL content of `render`: BOM removal, `strip()`, then the
single trailing-semicolon drop (issue #417). This is the `content` local of
the source after its line 80. -/
def renderStripped (content : List Char) : List Char :=
  if (pyStrip (stripBOM content)).getLast? = some ';' then
    (pyStrip (stripBOM content)).dropLast
  else pyStrip (stripBOM content)

/-- The `content_without_comments` local of `render` (lines 89-91): remove
`--` comments, then `/* */` comments, then every `;`, then strip. -/
def commentStripped (c : List Char) : List Char :=
  pyStrip (removeSemis (stripBlockComments (stripLineComments c)))

/-- `JinjaTemplateProcessor.render` on the template-expanded text. -/
def render (script content : List Char) : Except (List Char) (List Char) :=
  if isCliScriptName script then
    if pyStrip (stripBOM content) = [] then .error (cliEmptyMsg script)
    else .ok (pyStrip (stripBOM content))
  else
    if renderStripped content = [] ∨ isAllSpace (renderStripped content) then
      .error (emptyContentMsg script)
    else if commentStripped (renderStripped content) = [] then
      .error (onlyCommentsMsg script)
    else .ok (renderStripped content)

/-- Consume through the next newline, returning the count of consumed
characters (newline included) and the remainder; `none` if no newline. -/
def dropPastNewline : List Char → Option (Nat × List Char)
  | [] => none
  | c :: rest =>
    if c = '\n' then some (1, rest)
    else
      match dropPastNewline rest with
      | none => none
      | some (k, r) => some (k + 1, r)

theorem dropPastNewline_spec :
    ∀ {l : List Char} {k : Nat} {r : List Char},
      dropPastNewline l = some (k, r) → k + r.length = l.length ∧ 1 ≤ k := by
  intro l
  induction l with
  | nil => intro k r h; cases h
  | cons c rest ih =>
    intro k r h
    rw [dropPastNewline] at h
    split at h
    · cases h
      simp only [List.length_cons]
      omega
    · split at h
      · cases h
      · rename_i k' r' hrec
        cases h
        have := ih hrec
        simp only [List.length_cons]
        omega

/-- Consume through the next `*/`, returning the count of consumed
characters (the `*/` included) and the remainder; `none` if no `*/`. -/
def dropPastClose : List Char → Option (Nat × List Char)
  | [] => none
  | c :: rest =>
    if c = '*' ∧ rest.head? = some '/' then some (2, rest.tail)
    else
      match dropPastClose rest with
      | none => none
      | some (k, r) => some (k + 1, r)

theorem dropPastClose_spec :
    ∀ {l : List Char} {k : Nat} {r : List Char},
      dropPastClose l = some (k, r) → k + r.length = l.length ∧ 1 ≤ k := by
  intro l
  induction l with
  | nil => intro k r h; cases h
  | cons c rest ih =>
    intro k r h
    rw [dropPastClose] at h
    split at h
    · rename_i hc
      cases h
      have hne : rest ≠ [] := by
        intro hnil
        rw [hnil] at hc
        simp at hc
      have h1 : rest.tail.length = rest.length - 1 := by simp
      have h2 : 1 ≤ rest.length := List.length_pos.mpr hne
      simp only [List.length_cons]
      omega
    · split at h
      · cases h
      · rename_i k' r' hrec
        cases h
        have := ih hrec
        simp only [List.length_cons]
        omega

/-- `_find_last_real_semicolon` scan: `i` is the current index, `acc` the
index of the last semicolon seen outside comments (`none` stands for the
Python `-1`). `--` skips to just after the next newline, `/*` to just after
the next `*/`; an unterminated comment ends the scan. The fuel argument
makes the recursion structural; the list argument shrinks strictly
(`dropPastNewline_spec`, `dropPastClose_spec`), so with fuel equal to the
content length the `0` branch is reached only with an empty list, for which
it returns `acc` exactly as the `[]` branch does. -/
def flrsAuxF : Nat → Nat → Option Nat → List Char → Option Nat
  | 0, _, acc, _ => acc
  | _ + 1, _, acc, [] => acc
  | f + 1, i, acc, '-' :: '-' :: rest =>
    (match dropPastNewline rest with
     | none => acc
     | some (k, rest2) => flrsAuxF f (i + 2 + k) acc rest2)
  | f + 1, i, acc, '/' :: '*' :: rest =>
    (match dropPastClose rest with
     | none => acc
     | some (k, rest2) => flrsAuxF f (i + 2 + k) acc rest2)
  | f + 1, i, acc, ';' :: rest => flrsAuxF f (i + 1) (some i) rest
  | f + 1, i, acc, _ :: rest => flrsAuxF f (i + 1) acc rest

/-- `_find_last_real_semicolon(content)` (`none` = Python `-1`). -/
def findLastRealSemicolon (content : List Char) : Option Nat :=
  flrsAuxF content.length 0 none content

/-- The no-op statement appended by `_handle_trailing_comments`. -/
def fixSuffix : List Char :=
  "\nSELECT 1; -- schemachange: trailing comment fix".toList

/-- `_handle_trailing_comments(content)`: append the no-op only when there
is a real last semicolon, a newline after it, and the substring after it is
non-whitespace yet reduces to nothing once single-line comments, block
comments and whitespace are removed. -/
def handleTrailingComments (content : List Char) : List Char :=
  match findLastRealSemicolon content with
  | none => content
  | some idx =>
    if (content.drop (idx + 1)).contains '\n' = false then content
    else if pyStrip (stripBlockComments (stripLineComments
          (content.drop (idx + 1)))) = [] ∧
        pyStrip (content.drop (idx + 1)) ≠ [] then
      pyRstrip content ++ fixSuffix
    else content

/-- `prepare_for_execution`: CLI scripts pass through; SQL content gets the
trailing-comment fix. -/
def prepareForExecution (script content : List Char) : List Char :=
  if isCliScriptName script then content
  else handleTrailingComments content

theorem render_sql_ok (script content o : List Char)
    (hcli : isCliScriptName script = false)
    (hok : render script content = .ok o) :
    o = renderStripped content := by
  unfold render at hok
  rw [if_neg (by simp [hcli])] at hok
  split at hok
  · simp at hok
  · split at hok
    · simp at hok
    · simpa using hok.symm

/-- **C3.** For any SQL script, `render` removes at most one semicolon and
only at the very end: writing `c` for the content after BOM removal and
whitespace stripping, if `c` ends with `;` the canonical form is
`c.dropLast` (one semicolon fewer, internal semicolons untouched), otherwise
it is `c` itself (same semicolon count); in particular
`render "SELECT 1;\nSELECT 2;"` is `"SELECT 1;\nSELECT 2"` and the canonical
forms of `"-- Test\nSELECT 1;"` and `"-- Test\nSELECT 1"` coincide. -/
theorem render_strips_one_trailing_semicolon (script content o : List Char)
    (hcli : isCliScriptName script = false)
    (hok : render script content = .ok o) :
    ((pyStrip (stripBOM content)).getLast? = some ';' →
        o = (pyStrip (stripBOM content)).dropLast ∧
        o.count ';' + 1 = (pyStrip (stripBOM content)).count ';') ∧
    ((pyStrip (stripBOM content)).getLast? ≠ some ';' →
        o = pyStrip (stripBOM content) ∧
        o.count ';' = (pyStrip (stripBOM content)).count ';') ∧
    render script "SELECT 1;\nSELECT 2;".toList = .ok "SELECT 1;\nSELECT 2".toList ∧
    render script "-- Test\nSELECT 1;".toList = render script "-- Test\nSELECT 1".toList := by
  have ho := render_sql_ok script content o hcli hok
  refine ⟨?_, ?_, ?_, ?_⟩
  · intro hlast
    have hc : renderStripped content = (pyStrip (stripBOM content)).dropLast := by
      unfold renderStripped
      rw [if_pos hlast]
    have hdecomp : (pyStrip (stripBOM content)).dropLast ++ [';'] =
        pyStrip (stripBOM content) :=
      List.dropLast_append_getLast? ';' (Option.mem_def.mpr hlast)
    constructor
    · rw [ho, hc]
    · rw [ho, hc, ← hdecomp]
      simp
  · intro hlast
    have hc : renderStripped content = pyStrip (stripBOM content) := by
      unfold renderStripped
      rw [if_neg hlast]
    rw [ho, hc]
    simp
  · unfold render
    rw [if_neg (show ¬ isCliScriptName script = true by simp [hcli])]
    rw [if_neg (show ¬(renderStripped "SELECT 1;\nSELECT 2;".toList = [] ∨
      isAllSpace (renderStripped "SELECT 1;\nSELECT 2;".toList) = true) by decide)]
    rw [if_neg (show ¬(commentStripped
      (renderStripped "SELECT 1;\nSELECT 2;".toList) = []) by decide)]
    exact congrArg Except.ok (by decide)
  · have e1 : render script "-- Test\nSELECT 1;".toList =
        .ok (renderStripped "-- Test\nSELECT 1;".toList) := by
      unfold render
      rw [if_neg (show ¬ isCliScriptName script = true by simp [hcli])]
      rw [if_neg (show ¬(renderStripped "-- Test\nSELECT 1;".toList = [] ∨
        isAllSpace (renderStripped "-- Test\nSELECT 1;".toList) = true) by decide)]
      rw [if_neg (show ¬(commentStripped
        (renderStripped "-- Test\nSELECT 1;".toList) = []) by decide)]
    have e2 : render script "-- Test\nSELECT 1".toList =
        .ok (renderStripped "-- Test\nSELECT 1".toList) := by
      unfold render
      rw [if_neg (show ¬ isCliScriptName script = true by simp [hcli])]
      rw [if_neg (show ¬(renderStripped "-- Test\nSELECT 1".toList = [] ∨
        isAllSpace (renderStripped "-- Test\nSELECT 1".toList) = true) by decide)]
      rw [if_neg (show ¬(commentStripped
        (renderStripped "-- Test\nSELECT 1".toList) = []) by decide)]
    rw [e1, e2]
    exact congrArg Except.ok (by decide)

/-- Witness for C3: `render` applied to the concrete script `x.sql` with
content `SELECT 1;\nSELECT 2;`. -/
theorem render_strips_one_trailing_semicolon_witness :
    render "x.sql".toList "SELECT 1;\nSELECT 2;".toList =
      .ok "SELECT 1;\nSELECT 2".toList :=
  (render_strips_one_trailing_semicolon "x.sql".toList
    "SELECT 1;\nSELECT 2;".toList "SELECT 1;\nSELECT 2".toList
    (by decide)
    (by
      unfold render
      rw [if_neg (show ¬ isCliScriptName "x.sql".toList = true by decide)]
      rw [if_neg (show ¬(renderStripped "SELECT 1;\nSELECT 2;".toList = [] ∨
        isAllSpace (renderStripped "SELECT 1;\nSELECT 2;".toList) = true) by decide)]
      rw [if_neg (show ¬(commentStripped
        (renderStripped "SELECT 1;\nSELECT 2;".toList) = []) by decide)]
      exact congrArg Except.ok (by decide))).2.2.1

theorem emptyContentMsg_ne_onlyCommentsMsg (script : List Char) :
    emptyContentMsg script ≠ onlyCommentsMsg script := by
  unfold emptyContentMsg onlyCommentsMsg
  intro h
  rw [List.append_assoc, List.append_assoc] at h
  have h2 := List.append_cancel_left h
  have h3 := List.append_cancel_left h2
  exact absurd h3 (by decide)

/-- **C7.** For every SQL script: `render` fails with the
`rendered to empty content` message exactly when the content - after BOM
removal, whitespace stripping and trailing-semicolon stripping - is empty or
entirely whitespace; it fails with the `contains only comments or
semicolons` message exactly when the non-empty content becomes empty after
removing `--` comments, non-greedy dot-matches-newline `/*...*/` comments,
every `;` and surrounding whitespace; otherwise it returns the processed
content. Both messages contain the quoted phrases, and
`"-- only comment\n"` hits the comments-only failure. -/
theorem render_error_characterization (script content : List Char)
    (hcli : isCliScriptName script = false) :
    (render script content = .error (emptyContentMsg script) ↔
      (renderStripped content = [] ∨ isAllSpace (renderStripped content) = true)) ∧
    (render script content = .error (onlyCommentsMsg script) ↔
      (¬(renderStripped content = [] ∨ isAllSpace (renderStripped content) = true) ∧
        commentStripped (renderStripped content) = [])) ∧
    (¬(renderStripped content = [] ∨ isAllSpace (renderStripped content) = true) →
      commentStripped (renderStripped content) ≠ [] →
      render script content = .ok (renderStripped content)) ∧
    (∃ pre post, emptyContentMsg script =
      pre ++ "rendered to empty content".toList ++ post) ∧
    (∃ pre post, onlyCommentsMsg script =
      pre ++ "contains only comments or semicolons".toList ++ post) ∧
    render script "-- only comment\n".toList = .error (onlyCommentsMsg script) := by
  have hne := emptyContentMsg_ne_onlyCommentsMsg script
  have hrender : render script content =
      (if renderStripped content = [] ∨ isAllSpace (renderStripped content) = true
       then Except.error (emptyContentMsg script)
       else if commentStripped (renderStripped content) = [] then
         Except.error (onlyCommentsMsg script)
       else Except.ok (renderStripped content)) := by
    unfold render
    rw [if_neg (show ¬ isCliScriptName script = true by simp [hcli])]
  refine ⟨?_, ?_, ?_, ?_, ?_, ?_⟩
  · rw [hrender]
    by_cases h1 : renderStripped content = [] ∨ isAllSpace (renderStripped content) = true
    · rw [if_pos h1]
      exact ⟨fun _ => h1, fun _ => rfl⟩
    · rw [if_neg h1]
      by_cases h2 : commentStripped (renderStripped content) = []
      · rw [if_pos h2]
        constructor
        · intro h
          exact absurd (Except.error.inj h).symm hne
        · intro hc
          exact absurd hc h1
      · rw [if_neg h2]
        constructor
        · intro h
          exact Except.noConfusion h
        · intro hc
          exact absurd hc h1
  · rw [hrender]
    by_cases h1 : renderStripped content = [] ∨ isAllSpace (renderStripped content) = true
    · rw [if_pos h1]
      constructor
      · intro h
        exact absurd (Except.error.inj h) hne
      · intro hc
        exact absurd h1 hc.1
    · rw [if_neg h1]
      by_cases h2 : commentStripped (renderStripped content) = []
      · rw [if_pos h2]
        exact ⟨fun _ => ⟨h1, h2⟩, fun _ => rfl⟩
      · rw [if_neg h2]
        constructor
        · intro h
          exact Except.noConfusion h
        · intro hc
          exact absurd hc.2 h2
  · intro h1 h2
    rw [hrender, if_neg h1, if_neg h2]
  · refine ⟨"Script \x27".toList ++ script ++ "\x27 ".toList,
      ". Check Jinja variables and conditional blocks.".toList, ?_⟩
    unfold emptyContentMsg
    simp only [List.append_assoc]
    rw [List.append_right_inj, List.append_right_inj]
    decide
  · refine ⟨"Script \x27".toList ++ script ++ "\x27 ".toList,
      ". Add SQL statements or remove the script.".toList, ?_⟩
    unfold onlyCommentsMsg
    simp only [List.append_assoc]
    rw [List.append_right_inj, List.append_right_inj]
    decide
  · unfold render
    rw [if_neg (show ¬ isCliScriptName script = true by simp [hcli])]
    rw [if_neg (show ¬(renderStripped "-- only comment\n".toList = [] ∨
      isAllSpace (renderStripped "-- only comment\n".toList) = true) by decide)]
    rw [if_pos (show commentStripped
      (renderStripped "-- only comment\n".toList) = [] by decide)]

/-- Witness for C7 at the concrete script `x.sql` with comment-only
content. -/
theorem render_error_characterization_witness :
    render "x.sql".toList "-- only comment\n".toList =
      .error (onlyCommentsMsg "x.sql".toList) :=
  (render_error_characterization "x.sql".toList "-- only comment\n".toList
    (by decide)).2.2.2.2.2

theorem handleTrailingComments_none {content : List Char}
    (h : findLastRealSemicolon content = none) :
    handleTrailingComments content = content := by
  unfold handleTrailingComments
  rw [h]

theorem handleTrailingComments_some {content : List Char} {i : Nat}
    (h : findLastRealSemicolon content = some i) :
    handleTrailingComments content =
      (if (content.drop (i + 1)).contains '\n' = false then content
       else if pyStrip (stripBlockComments (stripLineComments
             (content.drop (i + 1)))) = [] ∧
           pyStrip (content.drop (i + 1)) ≠ [] then
         pyRstrip content ++ fixSuffix
       else content) := by
  unfold handleTrailingComments
  rw [h]

/-- **C4.** `prepare_for_execution` is the identity on CLI scripts; on SQL
content it returns the input unchanged unless a last semicolon outside any
comment exists, the substring after it contains a newline, and that
substring is non-whitespace yet becomes empty after removing single-line
comments, block comments and whitespace - in which exact case it returns the
right-stripped input with the trailing-comment fix appended; the canonical
form `"CREATE TABLE foo (id INT);\n-- Author: John Doe"` is a concrete
instance of the fix. -/
theorem prepare_for_execution_spec (script content : List Char) :
    (isCliScriptName script = true → prepareForExecution script content = content) ∧
    (isCliScriptName script = false →
      (findLastRealSemicolon content = none →
        prepareForExecution script content = content) ∧
      (∀ i, findLastRealSemicolon content = some i →
        ((content.drop (i + 1)).contains '\n' = false →
          prepareForExecution script content = content) ∧
        ((content.drop (i + 1)).contains '\n' = true →
          (¬(pyStrip (stripBlockComments (stripLineComments
                (content.drop (i + 1)))) = [] ∧
              pyStrip (content.drop (i + 1)) ≠ []) →
            prepareForExecution script content = content) ∧
          ((pyStrip (stripBlockComments (stripLineComments
                (content.drop (i + 1)))) = [] ∧
              pyStrip (content.drop (i + 1)) ≠ []) →
            prepareForExecution script content =
              pyRstrip content ++ fixSuffix)))) ∧
    prepareForExecution "x.sql".toList
        "CREATE TABLE foo (id INT);\n-- Author: John Doe".toList =
      "CREATE TABLE foo (id INT);\n-- Author: John Doe".toList ++ fixSuffix := by
  refine ⟨?_, ?_, ?_⟩
  · intro h
    unfold prepareForExecution
    rw [if_pos h]
  · intro hcli
    have hexec : prepareForExecution script content =
        handleTrailingComments content := by
      unfold prepareForExecution
      rw [if_neg (show ¬ isCliScriptName script = true by simp [hcli])]
    constructor
    · intro hnone
      rw [hexec, handleTrailingComments_none hnone]
    · intro i hsome
      constructor
      · intro hnl
        rw [hexec, handleTrailingComments_some hsome, if_pos hnl]
      · intro hnl
        have hnl' : ¬((content.drop (i + 1)).contains '\n' = false) := by
          rw [hnl]
          simp
        constructor
        · intro hcond
          rw [hexec, handleTrailingComments_some hsome, if_neg hnl',
            if_neg hcond]
        · intro hcond
          rw [hexec, handleTrailingComments_some hsome, if_neg hnl',
            if_pos hcond]
  · have h1 : isCliScriptName "x.sql".toList = false := by decide
    unfold prepareForExecution
    rw [if_neg (show ¬ isCliScriptName "x.sql".toList = true by decide)]
    have hsome : findLastRealSemicolon
        "CREATE TABLE foo (id INT);\n-- Author: John Doe".toList = some 25 := by
      decide
    rw [handleTrailingComments_some hsome, if_neg (by decide), if_pos (by decide)]
    decide

/-- Witness for C4: the trailing-comment fix fires on the concrete canonical
form. -/
theorem prepare_for_execution_spec_witness :
    prepareForExecution "deploy.cli.yml".toList "steps: []".toList =
      "steps: []".toList :=
  (prepare_for_execution_spec "deploy.cli.yml".toList "steps: []".toList).1
    (by decide)

/-! ### session/Script.py : filename classification

The factories test the V/R/A regular expressions in order and build script
records. The regular expressions are implemented by direct backtracking
search in Python's order: the optional version group `([^_]|_(?!_))+?` is
greedy (longest first, then absent), the separator `_{1,2}` is greedy (two
underscores, then one), the description `.+?` is lazy (shortest first, dot
does not match newline), then the anchored tail. -/

instance {ε α : Type} [DecidableEq ε] [DecidableEq α] :
    DecidableEq (Except ε α) := fun x y =>
  match x, y with
  | .ok a, .ok b =>
    if h : a = b then .isTrue (by rw [h])
    else .isFalse (by intro hh; cases hh; exact h rfl)
  | .error a, .error b =>
    if h : a = b then .isTrue (by rw [h])
    else .isFalse (by intro hh; cases hh; exact h rfl)
  | .ok _, .error _ => .isFalse (fun h => Except.noConfusion h)
  | .error _, .ok _ => .isFalse (fun h => Except.noConfusion h)

inductive SType where
  | V
  | R
  | A
deriving DecidableEq, Repr

inductive SFormat where
  | SQL
  | CLI
deriving DecidableEq, Repr

/-- A classified script (the fields of the `Script` dataclasses). -/
structure ScriptRec where
  name : List Char
  stype : SType
  sformat : SFormat
  version : Option (List Char)
  description : List Char
deriving DecidableEq, Repr

/-- Length of the longest match of `([^_]|_(?!_))+` at the front: a maximal
run that stops only at a double underscore (a final single underscore is
allowed, since the lookahead sees the end of the string). -/
def maxVerRun : List Char → Nat
  | [] => 0
  | ['_'] => 1
  | '_' :: '_' :: _ => 0
  | _ :: rest => 1 + maxVerRun rest

/-- Lazy `.+?` followed by `tail`: the shortest non-empty prefix of
non-newline characters after which `tail` matches; returns the description
characters. -/
def tryDesc (tail : List Char → Bool) (acc : List Char) :
    List Char → Option (List Char)
  | [] => none
  | c :: rest =>
    if c = '\n' then none
    else if tail rest then some (acc ++ [c])
    else tryDesc tail (acc ++ [c]) rest

/-- `(?P<separator>_{1,2})(?P<description>.+?)` followed by `tail`: the
greedy separator (two underscores first, then one), then the lazy
description. Returns `(separator, description)`. -/
def trySepDesc (tail : List Char → Bool) : List Char → Option (List Char × List Char)
  | '_' :: '_' :: rest =>
    (match tryDesc tail [] rest with
     | some d => some ("__".toList, d)
     | none =>
       match tryDesc tail [] ('_' :: rest) with
       | some d => some ("_".toList, d)
       | none => none)
  | '_' :: rest =>
    (match tryDesc tail [] rest with
     | some d => some ("_".toList, d)
     | none => none)
  | _ => none

/-- Version lengths `k, k-1, ..., 1`, then the absent group. -/
def matchVAux (tail : List Char → Bool) (afterV : List Char) :
    Nat → Option (Option (List Char) × List Char × List Char)
  | 0 =>
    (match trySepDesc tail afterV with
     | some (sep, d) => some (none, sep, d)
     | none => none)
  | k + 1 =>
    (match trySepDesc tail (afterV.drop (k + 1)) with
     | some (sep, d) => some (some (afterV.take (k + 1)), sep, d)
     | none => matchVAux tail afterV k)

/-- `^(V)(?P<version>([^_]|_(?!_))+)?(?P<separator>_{1,2})(?P<description>.+?)`
followed by `tail`, case-insensitive, matched at the start. Returns
`(version?, separator, description)`. -/
def matchVPattern (tail : List Char → Bool) (name : List Char) :
    Option (Option (List Char) × List Char × List Char) :=
  match name with
  | c :: rest =>
    if c.toLower = 'v' then matchVAux tail rest (maxVerRun rest)
    else none
  | [] => none

/-- `^(R)(?P<separator>_{1,2})(?P<description>.+?)` (or `A`) followed by
`tail`, case-insensitive. -/
def matchRAPattern (letter : Char) (tail : List Char → Bool) (name : List Char) :
    Option (List Char × List Char) :=
  match name with
  | c :: rest => if c.toLower = letter then trySepDesc tail rest else none
  | [] => none

/-- Tail of the SQL grammars: the literal `\.` (the match ends there). -/
def sqlTailOk (rest : List Char) : Bool := rest.head? == some '.'

/-- Tail of the CLI grammars: `\.cli\.yml(\.jinja)?$`, case-insensitive. -/
def cliTailOk (rest : List Char) : Bool :=
  lowerStr rest == ".cli.yml".toList || lowerStr rest == ".cli.yml.jinja".toList

/-- `Script.get_script_name`: strip one trailing `.jinja` (case-insensitive;
`Path.stem` drops the final extension). -/
def getScriptName (fileName : List Char) : List Char :=
  if ".jinja".toList.isSuffixOf (lowerStr fileName) then
    fileName.take (fileName.length - 6)
  else fileName

/-- Python `str.capitalize()`. -/
def pyCapitalize : List Char → List Char
  | [] => []
  | c :: rest => c.toUpper :: lowerStr rest

/-- The description field: underscores become spaces, then capitalise. -/
def descOf (d : List Char) : List Char :=
  pyCapitalize (d.map (fun c => if c = '_' then ' ' else c))

/-- The prefix named in the separator diagnostic: `f"V{version}"` for
versioned scripts, the kind letter otherwise. -/
def prefixOf (t : SType) (version : Option (List Char)) : List Char :=
  match t, version with
  | .V, some v => 'V' :: v
  | .V, none => "VNone".toList
  | .R, _ => ['R']
  | .A, _ => ['A']

def twoUnderscoresMsg (pre fileName : List Char) : List Char :=
  "two underscores are required between \x22".toList ++ pre ++
    "\x22 and the description: ".toList ++ fileName ++ "\n".toList ++ fileName

/-- `Script.from_path` (the shared part): capitalise the description and
reject a single-underscore separator. The deploy engine runs with
`version_number_regex = None`, so the optional regex check is skipped. -/
def scriptFromMatch (fileName : List Char) (t : SType) (f : SFormat)
    (version : Option (List Char)) (sep desc : List Char) :
    Except (List Char) ScriptRec :=
  if sep.length ≠ 2 then .error (twoUnderscoresMsg (prefixOf t version) fileName)
  else
    .ok { name := getScriptName fileName, stype := t, sformat := f,
          version := version, description := descOf desc }

/-- `cli_script_factory`: try the V, R, A CLI grammars in order. -/
def cliScriptFactory (fileName : List Char) : Except (List Char) (Option ScriptRec) :=
  match matchVPattern cliTailOk (pyStrip fileName) with
  | some (version, sep, desc) =>
    (match version with
     | none =>
       .error ("Versioned CLI migrations must be prefixed with a version: ".toList
         ++ fileName)
     | some v => (scriptFromMatch fileName .V .CLI (some v) sep desc).map some)
  | none =>
    match matchRAPattern 'r' cliTailOk (pyStrip fileName) with
    | some (sep, desc) => (scriptFromMatch fileName .R .CLI none sep desc).map some
    | none =>
      match matchRAPattern 'a' cliTailOk (pyStrip fileName) with
      | some (sep, desc) => (scriptFromMatch fileName .A .CLI none sep desc).map some
      | none => .ok none

/-- `script_factory`: try the V, R, A SQL grammars in order. -/
def scriptFactory (fileName : List Char) : Except (List Char) (Option ScriptRec) :=
  match matchVPattern sqlTailOk (pyStrip fileName) with
  | some (version, sep, desc) =>
    (match version with
     | none =>
       .error ("Versioned migrations must be prefixed with a version: ".toList
         ++ fileName)
     | some v => (scriptFromMatch fileName .V .SQL (some v) sep desc).map some)
  | none =>
    match matchRAPattern 'r' sqlTailOk (pyStrip fileName) with
    | some (sep, desc) => (scriptFromMatch fileName .R .SQL none sep desc).map some
    | none =>
      match matchRAPattern 'a' sqlTailOk (pyStrip fileName) with
      | some (sep, desc) => (scriptFromMatch fileName .A .SQL none sep desc).map some
      | none => .ok none

/-- `\.cli\.yml(\.jinja)?$` (case-insensitive), the extension dispatch of
`get_all_scripts_recursively`. -/
def cliExtMatch (n : List Char) : Bool :=
  ".cli.yml".toList.isSuffixOf (lowerStr n) ||
    ".cli.yml.jinja".toList.isSuffixOf (lowerStr n)

/-- `\.sql(\.jinja)?$` (case-insensitive). -/
def sqlExtMatch (n : List Char) : Bool :=
  ".sql".toList.isSuffixOf (lowerStr n) ||
    ".sql.jinja".toList.isSuffixOf (lowerStr n)

/-- Per-file classification in `get_all_scripts_recursively` (lines 207-214):
the CLI extension pattern is tested first; only if it fails is the SQL
extension pattern tested; unmatched files are ignored. -/
def classifyFile (fileName : List Char) : Except (List Char) (Option ScriptRec) :=
  if cliExtMatch (pyStrip fileName) then cliScriptFactory fileName
  else if sqlExtMatch (pyStrip fileName) then scriptFactory fileName
  else .ok none

/-- Does the filename match one of the three SQL grammars? -/
def matchesSqlGrammar (n : List Char) : Bool :=
  (matchVPattern sqlTailOk (pyStrip n)).isSome ||
    (matchRAPattern 'r' sqlTailOk (pyStrip n)).isSome ||
    (matchRAPattern 'a' sqlTailOk (pyStrip n)).isSome

/-- Does the filename match one of the three CLI grammars? -/
def matchesCliGrammar (n : List Char) : Bool :=
  (matchVPattern cliTailOk (pyStrip n)).isSome ||
    (matchRAPattern 'r' cliTailOk (pyStrip n)).isSome ||
    (matchRAPattern 'a' cliTailOk (pyStrip n)).isSome

/-- **C8 (counterexample).** The filename `V1__x.cli.yml` matches both an
SQL grammar and a CLI grammar, yet the classifier returns the CLI-grammar
record (`format = CLI`), not the SQL-grammar one: the dispatch tests the CLI
extension pattern first, not the SQL grammars first. -/
theorem classifier_sql_first_counterexample :
    matchesSqlGrammar "V1__x.cli.yml".toList = true ∧
    matchesCliGrammar "V1__x.cli.yml".toList = true ∧
    classifyFile "V1__x.cli.yml".toList =
      .ok (some { name := "V1__x.cli.yml".toList, stype := .V, sformat := .CLI,
                  version := some "1".toList, description := "X".toList }) := by
  refine ⟨by decide, by decide, by decide⟩

/-- **C8 (amended).** For every candidate filename the classifier first
tests the CLI extension pattern and, when it matches, classifies with the
three CLI grammars only; otherwise, when the SQL extension pattern matches,
it classifies with the three SQL grammars; otherwise the file is ignored.
Consequently a filename matching both an SQL grammar and a CLI grammar is
classified by the CLI grammar. -/
theorem classifier_dispatch (name : List Char) :
    (cliExtMatch (pyStrip name) = true →
      classifyFile name = cliScriptFactory name) ∧
    (cliExtMatch (pyStrip name) = false → sqlExtMatch (pyStrip name) = true →
      classifyFile name = scriptFactory name) ∧
    (cliExtMatch (pyStrip name) = false → sqlExtMatch (pyStrip name) = false →
      classifyFile name = .ok none) ∧
    classifyFile "V1__x.cli.yml".toList =
      .ok (some { name := "V1__x.cli.yml".toList, stype := .V, sformat := .CLI,
                  version := some "1".toList, description := "X".toList }) := by
  refine ⟨?_, ?_, ?_, by decide⟩
  · intro h
    unfold classifyFile
    rw [if_pos h]
  · intro h1 h2
    unfold classifyFile
    rw [if_neg (by simp [h1]), if_pos h2]
  · intro h1 h2
    unfold classifyFile
    rw [if_neg (by simp [h1]), if_neg (by simp [h2])]

/-- Witness for the amended C8: a `.cli.yml` filename is dispatched to the
CLI factory. -/
theorem classifier_dispatch_witness :
    classifyFile "V1__x.cli.yml".toList = cliScriptFactory "V1__x.cli.yml".toList :=
  (classifier_dispatch "V1__x.cli.yml".toList).1 (by decide)

/-! ### cli_script_executor.py

The subprocess launcher, `shutil.which`, the filesystem and the wall clock
are external collaborators, abstracted as oracles; YAML parsing
(`yaml.safe_load`) is external too, so the executor is modelled from the
parsed `Yaml` value on. Only string scalars are modelled (the code paths
the claims exercise never see non-string scalars). -/

/-- Result of `subprocess.run` with captured text output. Spawn-time
`FileNotFoundError`/`PermissionError` are outside the subprocess oracle. -/
structure ProcResult where
  returncode : Int
  stdout : List Char
  stderr : List Char
deriving DecidableEq, Repr

/-- Filesystem / PATH collaborators used by the executor. -/
structure FsOracle where
  which : List Char → Option (List Char)
  pathExists : List Char → Bool
  isDir : List Char → Bool
  resolve : List Char → List Char

/-- A parsed YAML value (string scalars only). -/
inductive Yaml where
  | nil
  | str (s : List Char)
  | list (xs : List Yaml)
  | map (kvs : List (List Char × Yaml))

def assocLookup {β : Type} : List (List Char × β) → List Char → Option β
  | [], _ => none
  | (k', v) :: rest, k => if k' = k then some v else assocLookup rest k

/-- Python truthiness of a YAML value. -/
def yamlTruthy : Yaml → Bool
  | .nil => false
  | .str s => s != []
  | .list xs => xs.length != 0
  | .map kvs => kvs.length != 0

/-- Python `str(...)` coercion of a YAML scalar (structured values are
placeholders; the claims never exercise them). -/
def yamlToStr : Yaml → List Char
  | .str s => s
  | .nil => "None".toList
  | .list _ => "[...]".toList
  | .map _ => "[...]".toList

/-- `Nat` rendered in decimal, as Python prints it. -/
def natRepr (n : Nat) : List Char := Nat.toDigits 10 n

/-- `Int` rendered as Python prints it. -/
def intRepr : Int → List Char
  | .ofNat n => natRepr n
  | .negSucc n => '-' :: natRepr (n + 1)

/-- An anticipated failure of `CLIStep.from_dict` / `parse_cli_script`:
`val` is a `ValueError` (caught and wrapped with the step index), `type` a
`TypeError` (not caught by the `except ValueError`). -/
inductive FDErr where
  | val (msg : List Char)
  | type (msg : List Char)
deriving DecidableEq, Repr

/-- `ALLOWED_CLI_TOOLS = frozenset({"snow"})`. -/
def allowedCliTools : List (List Char) := ["snow".toList]

/-- `Path(p).name`: the component after the last `/`. -/
def lastPathComponent (p : List Char) : List Char :=
  (p.reverse.takeWhile (fun c => c != '/')).reverse

/-- `_resolve_cli_tool` (posix: `os.sep = '/'`, `os.altsep = None`). -/
def resolveCliTool (fs : FsOracle) (cli : List Char) : Except (List Char) (List Char) :=
  if cli.contains '/' then
    if lastPathComponent cli ∈ allowedCliTools then
      if fs.pathExists cli then .ok cli
      else .error ("CLI tool path \x27".toList ++ cli ++ "\x27 does not exist".toList)
    else
      .error ("CLI tool \x27".toList ++ lastPathComponent cli ++
        "\x27 (from path \x27".toList ++ cli ++
        "\x27) is not supported. Allowed tools: snow".toList)
  else
    if cli ∈ allowedCliTools then
      match fs.which cli with
      | some p => .ok p
      | none =>
        .error ("CLI tool \x27".toList ++ cli ++
          "\x27 not found in PATH. Please ensure it is installed and accessible.".toList)
    else
      .error ("CLI tool \x27".toList ++ cli ++
        "\x27 is not supported. Allowed tools: snow".toList)

/-- The `CLIStep` dataclass. -/
structure CLIStepM where
  cli : List Char
  cliPath : List Char
  command : List Char
  args : List (List Char)
  workingDir : Option (List Char)
  env : Option (List (List Char × List Char))
  description : Option (List Char)
deriving DecidableEq, Repr

/-- `args`: absent gives `[]`, a scalar string is promoted to a singleton,
a list is coerced element-wise with `str(...)`. -/
def argsFromYaml : Option Yaml → Except FDErr (List (List Char))
  | none => .ok []
  | some (.str s) => .ok [s]
  | some (.list xs) => .ok (xs.map yamlToStr)
  | some _ => .error (.type "args value is not iterable".toList)

/-- `working_dir`: when present and truthy, resolve against the root folder
and require an existing directory. -/
def workingDirFromYaml (fs : FsOracle) : Option Yaml → Except FDErr (Option (List Char))
  | some w =>
    if yamlTruthy w then
      match w with
      | .str wd =>
        if fs.pathExists (fs.resolve wd) then
          if fs.isDir (fs.resolve wd) then .ok (some (fs.resolve wd))
          else
            .error (.val ("Working directory \x27".toList ++ fs.resolve wd ++
              "\x27 is not a directory".toList))
        else
          .error (.val ("Working directory \x27".toList ++ fs.resolve wd ++
            "\x27 does not exist".toList))
      | _ => .error (.type "working_dir is not a path".toList)
    else .ok none
  | none => .ok none

/-- `env`: when present and truthy, coerce keys and values to strings. -/
def envFromYaml : Option Yaml → Except FDErr (Option (List (List Char × List Char)))
  | some e =>
    if yamlTruthy e then
      match e with
      | .map ekvs => .ok (some (ekvs.map (fun kv => (kv.1, yamlToStr kv.2))))
      | _ => .error (.type "env has no items".toList)
    else .ok none
  | none => .ok none

/-- `CLIStep.from_dict`: required `cli`/`command`, tool resolution, scalar
`args` promotion, `working_dir` resolution and checks, `env` coercion.
Non-string `cli`/`command` values (which the source rejects with
`TypeError`s from `os.sep in cli` or later `str.split`) are reported as
`FDErr.type`; the claims never exercise them. -/
def stepFromDict (fs : FsOracle) (data : Yaml) : Except FDErr CLIStepM :=
  match data with
  | .map kvs =>
    if (assocLookup kvs "cli".toList).isSome = false then
      .error (.val "Step is missing required field \x27cli\x27".toList)
    else if (assocLookup kvs "command".toList).isSome = false then
      .error (.val "Step is missing required field \x27command\x27".toList)
    else
      match assocLookup kvs "cli".toList, assocLookup kvs "command".toList with
      | some (.str cli), some (.str command) =>
        (match resolveCliTool fs cli with
         | .error m => .error (.val m)
         | .ok cliPath =>
           match argsFromYaml (assocLookup kvs "args".toList) with
           | .error e => .error e
           | .ok args =>
             match workingDirFromYaml fs (assocLookup kvs "working_dir".toList) with
             | .error e => .error e
             | .ok workingDir =>
               match envFromYaml (assocLookup kvs "env".toList) with
               | .error e => .error e
               | .ok env =>
                 .ok { cli := cli, cliPath := cliPath, command := command,
                       args := args, workingDir := workingDir, env := env,
                       description :=
                         (match assocLookup kvs "description".toList with
                          | some .nil => none
                          | some y => some (yamlToStr y)
                          | none => none) })
      | _, _ => .error (.type "cli or command is not a string".toList)
  | _ => .error (.type "step data is not a mapping".toList)

/-- The per-step loop of `parse_cli_script`: `ValueError`s are wrapped with
the step index, `TypeError`s propagate. -/
def stepsFromList (fs : FsOracle) : Nat → List Yaml → Except FDErr (List CLIStepM)
  | _, [] => .ok []
  | i, y :: rest =>
    match stepFromDict fs y with
    | .error (.val m) =>
      .error (.val ("Invalid step at index ".toList ++ natRepr i ++ ": ".toList ++ m))
    | .error (.type m) => .error (.type m)
    | .ok st =>
      match stepsFromList fs (i + 1) rest with
      | .error e => .error e
      | .ok sts => .ok (st :: sts)

/-- `parse_cli_script` on the parsed YAML document. -/
def parseCliScript (fs : FsOracle) (data : Yaml) : Except FDErr (List CLIStepM) :=
  match data with
  | .map kvs =>
    (match assocLookup kvs "steps".toList with
     | none => .error (.val "CLI script is missing required \x27steps\x27 key".toList)
     | some (.list []) => .error (.val "\x27steps\x27 list cannot be empty".toList)
     | some (.list steps) => stepsFromList fs 0 steps
     | some _ => .error (.val "\x27steps\x27 must be a list of step definitions".toList))
  | _ => .error (.val "CLI script must be a YAML dictionary with a \x27steps\x27 key".toList)

/-- Python `str.split()` on whitespace, dropping empty parts. -/
def pySplitAux (acc : List Char) : List Char → List (List Char)
  | [] => if acc = [] then [] else [acc.reverse]
  | c :: rest =>
    if pySpace c then
      if acc = [] then pySplitAux [] rest
      else acc.reverse :: pySplitAux [] rest
    else pySplitAux (c :: acc) rest

def pySplit (s : List Char) : List (List Char) := pySplitAux [] s

/-- The context carried by `CLIScriptExecutionError`. -/
structure CLIError where
  scriptName : List Char
  scriptType : List Char
  errorMessage : List Char
  cliTool : Option (List Char)
  command : Option (List Char)
  exitCode : Option Int
  stdout : Option (List Char)
  stderr : Option (List Char)
  stepIndex : Option Nat
deriving DecidableEq, Repr

/-- `str(e)` of a `CLIScriptExecutionError` (its `__init__` message). -/
def strOfCliError (e : CLIError) : List Char :=
  "Failed to execute ".toList ++ e.scriptType ++ " CLI script \x27".toList ++
    e.scriptName ++ "\x27".toList ++
    (match e.stepIndex with
     | some i => " (step ".toList ++ natRepr (i + 1) ++ ")".toList
     | none => []) ++ ": ".toList ++ e.errorMessage

/-- The synthesised message when stderr is empty. -/
def synthExitMsg (rc : Int) : List Char :=
  "Command exited with code ".toList ++ intRepr rc

/-- `execute_cli_step`: dry-run returns the `None` sentinel without touching
the subprocess oracle; otherwise a non-zero exit code raises the typed error
whose `error_message` is the trimmed stderr, or the synthesised message when
stderr is empty. -/
def executeCliStep (run : Nat → ProcResult) (step : CLIStepM) (stepIndex : Nat)
    (scriptName scriptType : List Char) (dryRun : Bool) :
    Except CLIError (Option ProcResult) :=
  let cmdStr := List.intercalate [' '] (step.cli :: (pySplit step.command ++ step.args))
  if dryRun then .ok none
  else
    let result := run stepIndex
    if result.returncode ≠ 0 then
      .error
        { scriptName := scriptName,
          scriptType := scriptType,
          errorMessage :=
            (if result.stderr ≠ [] then pyStrip result.stderr
             else synthExitMsg result.returncode),
          cliTool := some step.cli,
          command := some cmdStr,
          exitCode := some result.returncode,
          stdout := some result.stdout,
          stderr := some result.stderr,
          stepIndex := some stepIndex }
    else .ok (some result)

/-- A failure of `execute_cli_script`: a parse/schema failure or a step
failure. -/
inductive ExecErr where
  | parse (e : FDErr)
  | cli (e : CLIError)
deriving DecidableEq, Repr

/-- The step loop of `execute_cli_script`: the first failure aborts. -/
def runSteps (run : Nat → ProcResult) (scriptName scriptType : List Char)
    (dryRun : Bool) : Nat → List CLIStepM → Except CLIError Unit
  | _, [] => .ok ()
  | i, st :: rest =>
    match executeCliStep run st i scriptName scriptType dryRun with
    | .error e => .error e
    | .ok _ => runSteps run scriptName scriptType dryRun (i + 1) rest

/-- `execute_cli_script`: parse, then execute each step in order; the wall
clock is the `execTime` oracle. -/
def executeCliScriptM (fs : FsOracle) (run : Nat → ProcResult)
    (scriptName scriptType : List Char) (yamlData : Yaml) (dryRun : Bool)
    (execTime : Nat) : Except ExecErr Nat :=
  match parseCliScript fs yamlData with
  | .error e => .error (.parse e)
  | .ok steps =>
    match runSteps run scriptName scriptType dryRun 0 steps with
    | .error e => .error (.cli e)
    | .ok _ => .ok execTime

/-! ### deploy.py : the deploy loop

The session (`get_script_metadata`, `apply_change_script`,
`record_change_history`), the Jinja render of each file and the SHA-224
checksum are external collaborators, abstracted as oracles. The trace of
`record_change_history` calls made by the engine itself (the CLI dispatch
path) is returned alongside the outcome. -/

/-- A script as the loop sees it (name is the lower-cased dictionary key). -/
structure MScript where
  name : List Char
  stype : SType
  sformat : SFormat
  version : List Char
deriving DecidableEq, Repr

/-- The fields of `DeployConfig` that the loop reads. -/
structure MConfig where
  outOfOrder : Bool
  raiseExceptionOnIgnoredVersionedScript : Bool
  continueVersionedOnError : Bool
  continueRepeatableOnError : Bool
  continueAlwaysOnError : Bool
  dryRun : Bool
deriving DecidableEq, Repr

/-- The result of `session.get_script_metadata`: prior V successes
(name to recorded checksum), prior R checksums (the dict may be `None`),
and the max published version (or `None` when the history is empty). -/
structure MSession where
  versionedScripts : List (List Char × List Char)
  rScriptsChecksum : Option (List (List Char × List Char))
  maxPublishedVersion : Option (List Char)

/-- External collaborators of the loop. -/
structure MOracle where
  contentOf : MScript → List Char
  checksumOf : List Char → List Char
  applySqlScript : MScript → List Char → Except (List Char) Unit
  yamlOf : MScript → Yaml
  fs : FsOracle
  run : MScript → Nat → ProcResult
  cliTime : MScript → Nat

/-- One `record_change_history` invocation made by the engine. -/
structure RecordCall where
  name : List Char
  checksum : List Char
  status : List Char
  errorMessage : Option (List Char)
  executionTime : Nat
deriving DecidableEq, Repr

/-- `deploy.py` line 40: `max_published_version =
get_alphanum_key(max_published_version)` - afterwards it is a list, never
`None`, so the `is not None` guards on lines 95 and 131 always hold. -/
def mpvKey (sess : MSession) : List AlphaTok :=
  getAlphanumKey sess.maxPublishedVersion

def tokRepr : AlphaTok → List Char
  | .str s => '\x27' :: s ++ ['\x27']
  | .num n => natRepr n

/-- Python `repr` of a key list, as interpolated into the f-string. -/
def pyReprKey (k : List AlphaTok) : List Char :=
  '[' :: List.intercalate ", ".toList (k.map tokRepr) ++ [']']

def neverAppliedMsg (name : List Char) (mpv : List AlphaTok) : List Char :=
  "Versioned script will never be applied: ".toList ++ name ++
    "\nVersion number is less than the max version number: ".toList ++
    pyReprKey mpv

/-- What the per-script decision phase (lines 79-121) concludes. -/
inductive Decision where
  | skip
  | raiseNever (msg : List Char)
  | execute
deriving DecidableEq, Repr

/-- Per-kind continue-on-error policy (lines 122-126). -/
def shouldContinue (cfg : MConfig) : SType → Bool
  | .V => cfg.continueVersionedOnError
  | .R => cfg.continueRepeatableOnError
  | .A => cfg.continueAlwaysOnError

/-- The skip/raise/execute decision for one script (lines 79-121). -/
def scriptDecision (cfg : MConfig) (sess : MSession) (checksumCurrent : List Char)
    (s : MScript) : Decision :=
  match s.stype with
  | .V =>
    (match assocLookup sess.versionedScripts s.name with
     | some _ => .skip
     | none =>
       if cfg.outOfOrder = false then
         if keyLe (getAlphanumKey (some s.version)) (mpvKey sess) = true then
           if cfg.raiseExceptionOnIgnoredVersionedScript then
             .raiseNever (neverAppliedMsg s.name (mpvKey sess))
           else .skip
         else .execute
       else .execute)
  | .R =>
    (match sess.rScriptsChecksum with
     | some m =>
       (match assocLookup m s.name with
        | some checksumLast =>
          if checksumCurrent = checksumLast then .skip else .execute
        | none => if checksumCurrent = [] then .skip else .execute)
     | none => if checksumCurrent = [] then .skip else .execute)
  | .A => .execute

/-- `is_out_of_order` (lines 128-133); after line 40 the
`max_published_version is not None` conjunct is always true. -/
def isOutOfOrderFlag (cfg : MConfig) (sess : MSession) (s : MScript) : Bool :=
  s.stype == .V && cfg.outOfOrder &&
    keyLe (getAlphanumKey (some s.version)) (mpvKey sess)

def fdErrMsg : FDErr → List Char
  | .val m => m
  | .type m => m

def sTypeStr : SType → List Char
  | .V => ['V']
  | .R => ['R']
  | .A => ['A']

/-- Keyword arguments accepted by `execute_cli_script`
(`cli_script_executor.py` line 324). -/
def executeCliScriptAcceptedKwargs : List (List Char) :=
  ["script".toList, "content".toList, "root_folder".toList, "dry_run".toList,
   "log".toList]

/-- Keyword arguments passed at the call site (`deploy.py` lines 146-153). -/
def deployCliCallKwargs : List (List Char) :=
  ["script".toList, "content".toList, "root_folder".toList, "dry_run".toList,
   "log".toList, "out_of_order".toList]

/-- The `TypeError` Python raises for the extra keyword argument. -/
def cliKwargTypeErrorMsg : List Char :=
  "execute_cli_script() got an unexpected keyword argument \x27out_of_order\x27".toList

/-- The dispatch phase (lines 142-185). The CLI branch mirrors lines
145-175 guarded by the Python calling convention: the call site passes
`out_of_order=`, which `execute_cli_script` does not accept, so the call
raises `TypeError` before the executor body runs and the success/`Failed`
record branches below the guard are unreachable. -/
def executeDispatch (cfg : MConfig) (oracle : MOracle) (s : MScript)
    (executableContent checksumCurrent : List Char) :
    List RecordCall × Except (List Char) Unit :=
  match s.sformat with
  | .CLI =>
    if deployCliCallKwargs.all (fun k => k ∈ executeCliScriptAcceptedKwargs) then
      match executeCliScriptM oracle.fs (oracle.run s) s.name (sTypeStr s.stype)
          (oracle.yamlOf s) cfg.dryRun (oracle.cliTime s) with
      | .ok t =>
        (if cfg.dryRun = false then
           [{ name := s.name, checksum := checksumCurrent,
              status := "Success".toList, errorMessage := none,
              executionTime := t }]
         else [], .ok ())
      | .error (.cli e) =>
        (if cfg.dryRun = false then
           [{ name := s.name, checksum := checksumCurrent,
              status := "Failed".toList,
              errorMessage := some (strOfCliError e), executionTime := 0 }]
         else [], .error (strOfCliError e))
      | .error (.parse e) => ([], .error (fdErrMsg e))
    else ([], .error cliKwargTypeErrorMsg)
  | .SQL =>
    (match oracle.applySqlScript s executableContent with
     | .ok _ => ([], .ok ())
     | .error msg => ([], .error msg))

/-- The loop counters and the `record_change_history` trace. -/
structure LoopState where
  applied : Nat
  skipped : Nat
  failed : Nat
  failedScripts : List (List Char)
  records : List RecordCall
deriving DecidableEq, Repr

/-- Outcome of `deploy`: normal completion or a raised exception, in both
cases with the `record_change_history` trace. -/
inductive DeployOutcome where
  | ok (applied skipped : Nat) (records : List RecordCall)
  | err (msg : List Char) (records : List RecordCall)
deriving DecidableEq, Repr

/-- `f"{scripts_failed} change script(s) failed: {', '.join(failed_scripts)}"`. -/
def summaryMsg (failed : Nat) (failedScripts : List (List Char)) : List Char :=
  natRepr failed ++ " change script(s) failed: ".toList ++
    List.intercalate ", ".toList failedScripts

/-- The deploy loop (lines 61-208) over the sorted scripts. -/
def deployLoop (cfg : MConfig) (sess : MSession) (oracle : MOracle) :
    List MScript → LoopState → DeployOutcome
  | [], st =>
    if st.failed > 0 then .err (summaryMsg st.failed st.failedScripts) st.records
    else .ok st.applied st.skipped st.records
  | s :: rest, st =>
    match scriptDecision cfg sess (oracle.checksumOf (oracle.contentOf s)) s with
    | .skip => deployLoop cfg sess oracle rest { st with skipped := st.skipped + 1 }
    | .raiseNever msg => .err msg st.records
    | .execute =>
      match executeDispatch cfg oracle s
          (prepareForExecution s.name (oracle.contentOf s))
          (oracle.checksumOf (oracle.contentOf s)) with
      | (recs, .ok _) =>
        deployLoop cfg sess oracle rest
          { st with applied := st.applied + 1, records := st.records ++ recs }
      | (recs, .error msg) =>
        if shouldContinue cfg s.stype then
          deployLoop cfg sess oracle rest
            { st with failed := st.failed + 1,
                      failedScripts := st.failedScripts ++ [s.name],
                      records := st.records ++ recs }
        else .err msg (st.records ++ recs)

def initLoopState : LoopState :=
  { applied := 0, skipped := 0, failed := 0, failedScripts := [], records := [] }

/-- `deploy` on an already-sorted script list. -/
def deployM (cfg : MConfig) (sess : MSession) (oracle : MOracle)
    (scripts : List MScript) : DeployOutcome :=
  deployLoop cfg sess oracle scripts initLoopState

theorem shp_true_cons {x : List AlphaTok} (h : Shp true x) :
    ∃ s rest, x = .str s :: rest := by
  cases h with
  | consS s rest h' => exact ⟨s, rest, rfl⟩

/-- The key of a non-empty version string is never `<=` the empty key. -/
theorem keyLe_nil_false {s : List Char} (h : s ≠ []) :
    keyLe (getAlphanumKey (some s)) [] = false := by
  obtain ⟨t, rest, hx⟩ := shp_true_cons (alphanumKey_shape s h)
  show keyLe (alphanumKeyOf s) [] = false
  rw [hx]
  rfl

/-- **C1.** For a versioned script with no prior success record: when
`out_of_order` is false, the history is non-empty and the script's version
key is `<=` the key of `max_published_version`, the engine raises
`Versioned script will never be applied: <name>` if
`raise_exception_on_ignored_versioned_script` is set (immediately - the
remaining scripts and the state are untouched), and otherwise skips the
script (skip counter incremented, nothing executed or recorded); when the
history is empty (`max_published_version` is `None`) the ordering branch
never fires and the script is eligible for execution. -/
theorem deploy_versioned_ordering (cfg : MConfig) (sess : MSession)
    (oracle : MOracle) (s : MScript) (rest : List MScript) (st : LoopState)
    (hV : s.stype = .V)
    (hnew : assocLookup sess.versionedScripts s.name = none) :
    (cfg.outOfOrder = false →
      ∀ v, sess.maxPublishedVersion = some v →
      keyLe (getAlphanumKey (some s.version)) (getAlphanumKey (some v)) = true →
      (cfg.raiseExceptionOnIgnoredVersionedScript = true →
        deployLoop cfg sess oracle (s :: rest) st =
          .err (neverAppliedMsg s.name (mpvKey sess)) st.records) ∧
      (cfg.raiseExceptionOnIgnoredVersionedScript = false →
        deployLoop cfg sess oracle (s :: rest) st =
          deployLoop cfg sess oracle rest { st with skipped := st.skipped + 1 })) ∧
    (sess.maxPublishedVersion = none → s.version ≠ [] →
      scriptDecision cfg sess (oracle.checksumOf (oracle.contentOf s)) s =
        .execute) := by
  constructor
  · intro hoo v hv hle
    have hmpv : mpvKey sess = getAlphanumKey (some v) := by
      unfold mpvKey
      rw [hv]
    have hdec : ∀ c, scriptDecision cfg sess c s =
        (if cfg.raiseExceptionOnIgnoredVersionedScript then
          Decision.raiseNever (neverAppliedMsg s.name (mpvKey sess))
         else Decision.skip) := by
      intro c
      unfold scriptDecision
      rw [hV]
      show (match assocLookup sess.versionedScripts s.name with
        | some _ => Decision.skip
        | none =>
          if cfg.outOfOrder = false then
            if keyLe (getAlphanumKey (some s.version)) (mpvKey sess) = true then
              if cfg.raiseExceptionOnIgnoredVersionedScript then
                Decision.raiseNever (neverAppliedMsg s.name (mpvKey sess))
              else Decision.skip
            else Decision.execute
          else Decision.execute) = _
      rw [hnew, if_pos hoo, hmpv, if_pos hle]
    constructor
    · intro hre
      show (match scriptDecision cfg sess
          (oracle.checksumOf (oracle.contentOf s)) s with
        | Decision.skip => deployLoop cfg sess oracle rest
            { st with skipped := st.skipped + 1 }
        | Decision.raiseNever msg => DeployOutcome.err msg st.records
        | Decision.execute =>
          match executeDispatch cfg oracle s
              (prepareForExecution s.name (oracle.contentOf s))
              (oracle.checksumOf (oracle.contentOf s)) with
          | (recs, .ok _) =>
            deployLoop cfg sess oracle rest
              { st with applied := st.applied + 1,
                        records := st.records ++ recs }
          | (recs, .error msg) =>
            if shouldContinue cfg s.stype then
              deployLoop cfg sess oracle rest
                { st with failed := st.failed + 1,
                          failedScripts := st.failedScripts ++ [s.name],
                          records := st.records ++ recs }
            else DeployOutcome.err msg (st.records ++ recs)) = _
      rw [hdec, if_pos hre]
    · intro hre
      show (match scriptDecision cfg sess
          (oracle.checksumOf (oracle.contentOf s)) s with
        | Decision.skip => deployLoop cfg sess oracle rest
            { st with skipped := st.skipped + 1 }
        | Decision.raiseNever msg => DeployOutcome.err msg st.records
        | Decision.execute =>
          match executeDispatch cfg oracle s
              (prepareForExecution s.name (oracle.contentOf s))
              (oracle.checksumOf (oracle.contentOf s)) with
          | (recs, .ok _) =>
            deployLoop cfg sess oracle rest
              { st with applied := st.applied + 1,
                        records := st.records ++ recs }
          | (recs, .error msg) =>
            if shouldContinue cfg s.stype then
              deployLoop cfg sess oracle rest
                { st with failed := st.failed + 1,
                          failedScripts := st.failedScripts ++ [s.name],
                          records := st.records ++ recs }
            else DeployOutcome.err msg (st.records ++ recs)) = _
      rw [hdec, if_neg (by rw [hre]; exact Bool.false_ne_true)]
  · intro hmv hver
    have hmpv : mpvKey sess = [] := by
      unfold mpvKey
      rw [hmv]
      rfl
    unfold scriptDecision
    rw [hV]
    show (match assocLookup sess.versionedScripts s.name with
      | some _ => Decision.skip
      | none =>
        if cfg.outOfOrder = false then
          if keyLe (getAlphanumKey (some s.version)) (mpvKey sess) = true then
            if cfg.raiseExceptionOnIgnoredVersionedScript then
              Decision.raiseNever (neverAppliedMsg s.name (mpvKey sess))
            else Decision.skip
          else Decision.execute
        else Decision.execute) = _
    rw [hnew, hmpv]
    by_cases hoo : cfg.outOfOrder = false
    · rw [if_pos hoo, keyLe_nil_false hver]
      simp
    · rw [if_neg hoo]

/-- **C5.** On any script execution failure the engine re-raises
immediately if and only if the continue flag for that script's kind is
false (the remaining scripts are never reached - the outcome does not
depend on them); if the flag is true, the loop proceeds with the failure
counted and the name recorded; regardless of the flags, a non-zero failed
count at the end of the loop raises the summary exception listing the
failed names; in particular a versioned failure stops the run whenever
`continue_versioned_on_error` is false, no matter the value of
`continue_always_on_error`. -/
theorem deploy_continue_on_error (cfg : MConfig) (sess : MSession)
    (oracle : MOracle) (s : MScript) (rest : List MScript) (st : LoopState)
    (msg : List Char) (recs : List RecordCall)
    (hdec : scriptDecision cfg sess (oracle.checksumOf (oracle.contentOf s)) s =
      .execute)
    (hfail : executeDispatch cfg oracle s
        (prepareForExecution s.name (oracle.contentOf s))
        (oracle.checksumOf (oracle.contentOf s)) = (recs, .error msg)) :
    (shouldContinue cfg s.stype = false →
      deployLoop cfg sess oracle (s :: rest) st =
        .err msg (st.records ++ recs)) ∧
    (shouldContinue cfg s.stype = true →
      deployLoop cfg sess oracle (s :: rest) st =
        deployLoop cfg sess oracle rest
          { st with failed := st.failed + 1,
                    failedScripts := st.failedScripts ++ [s.name],
                    records := st.records ++ recs }) ∧
    (∀ st2 : LoopState, 0 < st2.failed →
      deployLoop cfg sess oracle [] st2 =
        .err (summaryMsg st2.failed st2.failedScripts) st2.records) ∧
    (s.stype = .V → cfg.continueVersionedOnError = false →
      deployLoop cfg sess oracle (s :: rest) st =
        .err msg (st.records ++ recs)) := by
  have hstep : deployLoop cfg sess oracle (s :: rest) st =
      (if shouldContinue cfg s.stype then
        deployLoop cfg sess oracle rest
          { st with failed := st.failed + 1,
                    failedScripts := st.failedScripts ++ [s.name],
                    records := st.records ++ recs }
       else .err msg (st.records ++ recs)) := by
    show (match scriptDecision cfg sess
        (oracle.checksumOf (oracle.contentOf s)) s with
      | Decision.skip => deployLoop cfg sess oracle rest
          { st with skipped := st.skipped + 1 }
      | Decision.raiseNever m => DeployOutcome.err m st.records
      | Decision.execute =>
        match executeDispatch cfg oracle s
            (prepareForExecution s.name (oracle.contentOf s))
            (oracle.checksumOf (oracle.contentOf s)) with
        | (recs2, .ok _) =>
          deployLoop cfg sess oracle rest
            { st with applied := st.applied + 1,
                      records := st.records ++ recs2 }
        | (recs2, .error m) =>
          if shouldContinue cfg s.stype then
            deployLoop cfg sess oracle rest
              { st with failed := st.failed + 1,
                        failedScripts := st.failedScripts ++ [s.name],
                        records := st.records ++ recs2 }
          else DeployOutcome.err m (st.records ++ recs2)) = _
    rw [hdec, hfail]
  refine ⟨?_, ?_, ?_, ?_⟩
  · intro h
    rw [hstep, if_neg (by rw [h]; exact Bool.false_ne_true)]
  · intro h
    rw [hstep, if_pos h]
  · intro st2 h2
    show (if st2.failed > 0 then
        DeployOutcome.err (summaryMsg st2.failed st2.failedScripts) st2.records
      else DeployOutcome.ok st2.applied st2.skipped st2.records) = _
    rw [if_pos h2]
  · intro hV hcv
    have hsc : shouldContinue cfg s.stype = false := by
      rw [hV]
      exact hcv
    rw [hstep, if_neg (by rw [hsc]; exact Bool.false_ne_true)]

/-- Concrete collaborators for the witnesses. -/
def testFs : FsOracle :=
  { which := fun _ => some "/usr/local/bin/snow".toList,
    pathExists := fun _ => true,
    isDir := fun _ => true,
    resolve := fun p => p }

/-- An oracle whose SQL execution fails with `boom` and whose subprocess
exits with code 1 and stderr `Error: deployment failed`. -/
def oracleTest : MOracle :=
  { contentOf := fun _ => "SELECT 1".toList,
    checksumOf := fun c => c,
    applySqlScript := fun _ _ => .error "boom".toList,
    yamlOf := fun _ =>
      .map [("steps".toList,
        .list [.map [("cli".toList, .str "snow".toList),
                     ("command".toList, .str "app deploy".toList)]])],
    fs := testFs,
    run := fun _ _ =>
      { returncode := 1, stdout := [], stderr := "Error: deployment failed".toList },
    cliTime := fun _ => 0 }

def cfgC5 : MConfig :=
  { outOfOrder := false, raiseExceptionOnIgnoredVersionedScript := false,
    continueVersionedOnError := false, continueRepeatableOnError := true,
    continueAlwaysOnError := true, dryRun := false }

def sessEmpty : MSession :=
  { versionedScripts := [], rScriptsChecksum := none, maxPublishedVersion := none }

def scrC5 : MScript :=
  { name := "v1.0.0__one.sql".toList, stype := .V, sformat := .SQL,
    version := "1.0.0".toList }

/-- Witness for C5: a versioned SQL failure stops the run even though
`continue_always_on_error` (and `continue_repeatable_on_error`) are set. -/
theorem deploy_continue_on_error_witness :
    deployLoop cfgC5 sessEmpty oracleTest [scrC5] initLoopState =
      .err "boom".toList [] :=
  (deploy_continue_on_error cfgC5 sessEmpty oracleTest scrC5 [] initLoopState
    "boom".toList [] (by decide) (by decide)).2.2.2 (by decide) (by decide)

def cfgC1 : MConfig :=
  { outOfOrder := false, raiseExceptionOnIgnoredVersionedScript := true,
    continueVersionedOnError := false, continueRepeatableOnError := false,
    continueAlwaysOnError := false, dryRun := false }

def sessC1 : MSession :=
  { versionedScripts := [], rScriptsChecksum := none,
    maxPublishedVersion := some "1.0.3".toList }

def scrC1 : MScript :=
  { name := "v1.0.2__x.sql".toList, stype := .V, sformat := .SQL,
    version := "1.0.2".toList }

/-- Witness for C1: with `max_published_version = "1.0.3"`, the unapplied
`v1.0.2__x.sql` makes the engine raise under
`raise_exception_on_ignored_versioned_script`. -/
theorem deploy_versioned_ordering_witness :
    deployLoop cfgC1 sessC1 oracleTest [scrC1] initLoopState =
      .err (neverAppliedMsg "v1.0.2__x.sql".toList (mpvKey sessC1)) [] :=
  ((deploy_versioned_ordering cfgC1 sessC1 oracleTest scrC1 [] initLoopState
      (by decide) (by decide)).1
    (by decide) "1.0.3".toList (by decide) (by decide)).1 (by decide)

def yamlOneStep : Yaml :=
  .map [("steps".toList,
    .list [.map [("cli".toList, .str "snow".toList),
                 ("command".toList, .str "app deploy".toList)]])]

def yamlTwoSteps : Yaml :=
  .map [("steps".toList,
    .list [.map [("cli".toList, .str "snow".toList),
                 ("command".toList, .str "step1".toList)],
           .map [("cli".toList, .str "snow".toList),
                 ("command".toList, .str "step2".toList)]])]

def yamlBadTool : Yaml :=
  .map [("steps".toList,
    .list [.map [("cli".toList, .str "kubectl".toList),
                 ("command".toList, .str "apply".toList)]])]

def scrC6 : MScript :=
  { name := "v1.0.0__deploy.cli.yml".toList, stype := .V, sformat := .CLI,
    version := "1.0.0".toList }

/-- **C6 (code bug).** The executor itself behaves as the claim states: a
non-zero exit raises the typed error carrying the tool, exit code, stdout,
stderr, 0-based step index and the trimmed stderr as `error_message`, and no
later step runs (the outcome is the same under two subprocess oracles that
differ from step 1 on). But the deploy engine never reaches its
`record_change_history(status="Failed")` call: the call site
`deploy.py:146` passes `out_of_order=`, which `execute_cli_script` does not
accept, so dispatching any CLI script raises `TypeError` first and the
engine records nothing. -/
theorem cli_step_failure_code_bug :
    executeCliScriptM testFs
        (fun _ => { returncode := 1, stdout := [],
                    stderr := "Error: deployment failed".toList })
        "V1.0.0__deploy.cli.yml".toList "V".toList yamlOneStep false 7 =
      .error (.cli
        { scriptName := "V1.0.0__deploy.cli.yml".toList,
          scriptType := "V".toList,
          errorMessage := "Error: deployment failed".toList,
          cliTool := some "snow".toList,
          command := some "snow app deploy".toList,
          exitCode := some 1,
          stdout := some [],
          stderr := some "Error: deployment failed".toList,
          stepIndex := some 0 }) ∧
    (executeCliScriptM testFs
        (fun _ => { returncode := 1, stdout := [],
                    stderr := "Error: deployment failed".toList })
        "s".toList "V".toList yamlTwoSteps false 0 =
      executeCliScriptM testFs
        (fun i => if i = 0 then
            { returncode := 1, stdout := [],
              stderr := "Error: deployment failed".toList }
          else { returncode := 0, stdout := "ok".toList, stderr := [] })
        "s".toList "V".toList yamlTwoSteps false 0) ∧
    deployM cfgC5 sessEmpty oracleTest [scrC6] =
      .err cliKwargTypeErrorMsg [] := by
  refine ⟨by decide, by decide, by decide⟩

theorem runSteps_dryRun (run : Nat → ProcResult) (n t : List Char) :
    ∀ (steps : List CLIStepM) (i : Nat), runSteps run n t true i steps = .ok () := by
  intro steps
  induction steps with
  | nil => intro i; rfl
  | cons st rest ih =>
    intro i
    show (match executeCliStep run st i n t true with
      | .error e => Except.error e
      | .ok _ => runSteps run n t true (i + 1) rest) = _
    rw [show executeCliStep run st i n t true = Except.ok none from rfl]
    exact ih (i + 1)

def fsNoSnow : FsOracle := { testFs with which := fun _ => none }

def cfgDry : MConfig := { cfgC5 with dryRun := true }

/-- **C10 (code bug).** In `execute_cli_script` itself, dry-run still fully
parses the YAML and validates/resolves every step's tool - its result does
not depend on the subprocess oracle at all, and an invalid schema, a
disallowed tool or a tool missing from `PATH` still abort even with
`dry_run` set - and no record call carries `Success` or `Failed`. But the
deploy engine never gets there: the `out_of_order=` keyword at
`deploy.py:146` makes the dispatch raise `TypeError` even in dry-run, with
no `record_change_history` call at all. -/
theorem cli_dry_run_code_bug :
    (∀ (fs : FsOracle) (run run' : Nat → ProcResult) (n t : List Char)
        (y : Yaml) (time : Nat),
      executeCliScriptM fs run n t y true time =
        executeCliScriptM fs run' n t y true time) ∧
    executeCliScriptM testFs (fun _ => { returncode := 0, stdout := [], stderr := [] })
        "s".toList "V".toList yamlBadTool true 0 =
      .error (.parse (.val ("Invalid step at index 0: CLI tool \x27kubectl\x27 "
        ++ "is not supported. Allowed tools: snow").toList)) ∧
    executeCliScriptM fsNoSnow (fun _ => { returncode := 0, stdout := [], stderr := [] })
        "s".toList "V".toList yamlOneStep true 0 =
      .error (.parse (.val ("Invalid step at index 0: CLI tool \x27snow\x27 "
        ++ "not found in PATH. Please ensure it is installed and accessible.").toList)) ∧
    executeCliScriptM testFs (fun _ => { returncode := 0, stdout := [], stderr := [] })
        "s".toList "V".toList (Yaml.map []) true 0 =
      .error (.parse (.val "CLI script is missing required \x27steps\x27 key".toList)) ∧
    deployM cfgDry sessEmpty oracleTest [scrC6] =
      .err cliKwargTypeErrorMsg [] := by
  refine ⟨?_, by decide, by decide, by decide, by decide⟩
  intro fs run run' n t y time
  unfold executeCliScriptM
  cases hp : parseCliScript fs y with
  | error e => rfl
  | ok steps =>
    show (match runSteps run n t true 0 steps with
      | Except.error e => Except.error (ExecErr.cli e)
      | Except.ok _ => Except.ok time) =
      (match runSteps run' n t true 0 steps with
      | Except.error e => Except.error (ExecErr.cli e)
      | Except.ok _ => Except.ok time)
    rw [runSteps_dryRun run n t steps 0, runSteps_dryRun run' n t steps 0]

/-- Witness for C2: the concrete repository of the claim in execution
order. -/
theorem deploy_execution_order_witness :
    allScriptNamesSorted
        ["v1.0.0__a.sql".toList, "v1.0.10__b.sql".toList,
         "v1.0.2__c.sql".toList, "r__z.sql".toList, "a__y.sql".toList] =
      ["v1.0.0__a.sql".toList, "v1.0.2__c.sql".toList,
       "v1.0.10__b.sql".toList, "r__z.sql".toList, "a__y.sql".toList] :=
  (deploy_execution_order []).2
